import Mathlib

/-!
Verification of the windowed cumulative analysis pipeline of MessageAnalyzer.

This file gives a shallow embedding, in Lean 4, of the parts of the
repository that the frozen claims are about:

* `src/llm_analyzer.py` — `_create_chunks`, `_batch_analyze_dialogues`,
  `_aggregate_results`, `analyze_conversation`;
* `src/weekly_metrics_analyzer.py` — `validate_metrics` and the retry loop
  of `analyze_conversation_weekly`, plus its incremental checkpoint write;
* `src/stage2_llm_analyzer.py` — `CumulativeSummaryManager.get_compressed_summary`
  and its three compression regimes.

Modelling conventions: Python dicts with a fixed shape become structures;
dicts used as keyed maps become association lists (`List (String × _)`),
with absent keys modelled by `Option` and `KeyError` by `Except String`.
Python floats are modelled by `ℚ` (no claim depends on rounding).
Python string truthiness of `msg.get('text')` (key absent, `None`, or the
empty string are all falsy) is modelled by comparing a `String` field with
`""`. Machine-level regular expressions from the source are modelled by
hand-written scanning functions whose semantics follows Python's `re`
(leftmost match, greedy and lazy quantifiers as indicated at each
definition).
-/

namespace MessageAnalyzer

/-- A message record, as consumed by `_create_chunks` and
`analyze_conversation` in `src/llm_analyzer.py`.  `text` is the `'text'`
value with a missing key or `None` modelled as `""` (the code only ever
tests its truthiness and takes its length); `payload` abstracts the
remaining dict fields, which the chunker copies around untouched. -/
structure Msg where
  text : String
  is_from_me : Bool
  date_formatted : String
  payload : Nat
deriving DecidableEq, Repr

/-- Truthiness of `msg.get('text')`. -/
def hasText (m : Msg) : Bool := m.text ≠ ""

/-- Token estimate of one message: `(len(msg['text']) + 20) // 4`
(`src/llm_analyzer.py` line 532). -/
def msgTokens (m : Msg) : Nat := (m.text.length + 20) / 4

/-- Inner loop of `_create_chunks` (`src/llm_analyzer.py` lines 527-541):
walk the remaining messages accumulating the current chunk.  A message with
text is appended unless its tokens would push `token_count` over
`chunk_size` while the chunk is already non-empty (then the loop breaks); a
message without text is always appended at zero token cost. -/
def buildChunk (chunk_size : Nat) : List Msg → Nat → Nat → List Msg
  | [], _, _ => []
  | msg :: rest, token_count, chunk_len =>
    if hasText msg then
      let msg_tokens := msgTokens msg
      if token_count + msg_tokens > chunk_size ∧ chunk_len > 0 then
        []
      else
        msg :: buildChunk chunk_size rest (token_count + msg_tokens) (chunk_len + 1)
    else
      msg :: buildChunk chunk_size rest token_count (chunk_len + 1)

/-- Backward-overlap count of `_create_chunks` (`src/llm_analyzer.py`
lines 546-555): walk the just-closed chunk in reverse; each message with
text either fits inside the `overlap` token budget (counted) or stops the
walk; messages without text are skipped without being counted. Called on
`chunk.reverse`. -/
def overlapMsgs (overlap : Nat) : List Msg → Nat → Nat → Nat
  | [], _, acc => acc
  | msg :: rest, overlap_tokens, acc =>
    if hasText msg then
      let msg_tokens := msgTokens msg
      if overlap_tokens + msg_tokens > overlap then
        acc
      else
        overlapMsgs overlap rest (overlap_tokens + msg_tokens) (acc + 1)
    else
      overlapMsgs overlap rest overlap_tokens acc

/-- Outer `while i < len(messages)` loop of `_create_chunks`
(`src/llm_analyzer.py` lines 523-561), starting at cursor `i`.  After a
non-empty chunk the cursor advances by `max 1 (len(chunk) - overlap_msgs)`;
after an (unreachable) empty chunk it advances by 1. -/
def createChunksFrom (messages : List Msg) (chunk_size overlap : Nat) (i : Nat) :
    List (List Msg) :=
  if h : i < messages.length then
    let chunk := buildChunk chunk_size (messages.drop i) 0 0
    if chunk = [] then
      createChunksFrom messages chunk_size overlap (i + 1)
    else
      chunk :: createChunksFrom messages chunk_size overlap
        (i + max 1 (chunk.length - overlapMsgs overlap chunk.reverse 0 0))
  else
    []
termination_by messages.length - i
decreasing_by
  · omega
  · have h1 : 1 ≤ max 1 (chunk.length - overlapMsgs overlap chunk.reverse 0 0) :=
      le_max_left _ _
    omega

/-- Model of `LLMAnalyzer._create_chunks(messages, chunk_size, overlap)`
(`src/llm_analyzer.py` lines 506-562); `Stage2Analyzer._create_chunks` in
`src/stage2_llm_analyzer.py` (lines 533-579) is literally the same
algorithm. -/
def createChunks (messages : List Msg) (chunk_size overlap : Nat) : List (List Msg) :=
  if messages = [] then [] else createChunksFrom messages chunk_size overlap 0

/-- Start cursor positions of the chunks emitted by `createChunksFrom`:
mirrors its recursion exactly, emitting the cursor value `i` at which each
chunk was opened. -/
def chunkStartsFrom (messages : List Msg) (chunk_size overlap : Nat) (i : Nat) :
    List Nat :=
  if h : i < messages.length then
    let chunk := buildChunk chunk_size (messages.drop i) 0 0
    if chunk = [] then
      chunkStartsFrom messages chunk_size overlap (i + 1)
    else
      i :: chunkStartsFrom messages chunk_size overlap
        (i + max 1 (chunk.length - overlapMsgs overlap chunk.reverse 0 0))
  else
    []
termination_by messages.length - i
decreasing_by
  · omega
  · have h1 : 1 ≤ max 1 (chunk.length - overlapMsgs overlap chunk.reverse 0 0) :=
      le_max_left _ _
    omega

/-- Start positions of all chunks of `createChunks`. -/
def chunkStarts (messages : List Msg) (chunk_size overlap : Nat) : List Nat :=
  if messages = [] then [] else chunkStartsFrom messages chunk_size overlap 0

/-- Reassemble a chunk list: walking the chunks with their start positions,
drop from each chunk its leading part that repeats already-covered
positions (the duplicated overlap carried over from the previous chunk) and
concatenate the rest.  `covered` is the least position not yet covered. -/
def rebuildChunks : List (List Msg) → List Nat → Nat → List Msg
  | c :: cs, s :: ss, covered =>
    c.drop (covered - s) ++ rebuildChunks cs ss (max covered (s + c.length))
  | _, _, _ => []

/-- Token cost charged by `buildChunk` for a list of messages (messages
without text cost nothing). -/
def textTokens : List Msg → Nat
  | [] => 0
  | m :: rest => (if hasText m then msgTokens m else 0) + textTokens rest

theorem textTokens_cons (m : Msg) (rest : List Msg) :
    textTokens (m :: rest) = (if hasText m then msgTokens m else 0) + textTokens rest := rfl

theorem textTokens_cons_text (m : Msg) (rest : List Msg) (ht : hasText m = true) :
    textTokens (m :: rest) = msgTokens m + textTokens rest := by
  simp [textTokens, ht]

theorem textTokens_cons_notext (m : Msg) (rest : List Msg) (ht : hasText m = false) :
    textTokens (m :: rest) = textTokens rest := by
  simp [textTokens, ht]

theorem buildChunk_cons_text (b : Nat) (msg : Msg) (rest : List Msg) (tc cl : Nat)
    (ht : hasText msg = true) (hb : ¬ (tc + msgTokens msg > b ∧ cl > 0)) :
    buildChunk b (msg :: rest) tc cl
      = msg :: buildChunk b rest (tc + msgTokens msg) (cl + 1) := by
  simp [buildChunk, ht, hb]

theorem buildChunk_cons_stop (b : Nat) (msg : Msg) (rest : List Msg) (tc cl : Nat)
    (ht : hasText msg = true) (hb : tc + msgTokens msg > b ∧ cl > 0) :
    buildChunk b (msg :: rest) tc cl = [] := by
  simp [buildChunk, ht, hb]

theorem buildChunk_cons_notext (b : Nat) (msg : Msg) (rest : List Msg) (tc cl : Nat)
    (ht : hasText msg = false) :
    buildChunk b (msg :: rest) tc cl = msg :: buildChunk b rest tc (cl + 1) := by
  simp [buildChunk, ht]

theorem buildChunk_take (b : Nat) :
    ∀ (rest : List Msg) (tc cl : Nat),
      buildChunk b rest tc cl = rest.take (buildChunk b rest tc cl).length := by
  intro rest
  induction rest with
  | nil => intro tc cl; rfl
  | cons msg rest ih =>
    intro tc cl
    cases ht : hasText msg with
    | true =>
      by_cases hb : tc + msgTokens msg > b ∧ cl > 0
      · rw [buildChunk_cons_stop b msg rest tc cl ht hb]
        rfl
      · rw [buildChunk_cons_text b msg rest tc cl ht hb, List.length_cons,
          List.take_succ_cons]
        exact congrArg (msg :: ·) (ih _ _)
    | false =>
      rw [buildChunk_cons_notext b msg rest tc cl ht, List.length_cons,
        List.take_succ_cons]
      exact congrArg (msg :: ·) (ih _ _)

theorem buildChunk_length_le (b : Nat) (rest : List Msg) (tc cl : Nat) :
    (buildChunk b rest tc cl).length ≤ rest.length := by
  conv_lhs => rw [buildChunk_take b rest tc cl]
  simpa using List.length_take_le _ _

theorem buildChunk_ne_nil (b : Nat) (rest : List Msg) (tc : Nat) (h : rest ≠ []) :
    buildChunk b rest tc 0 ≠ [] := by
  match rest with
  | [] => exact absurd rfl h
  | msg :: rest =>
    by_cases ht : hasText msg
    · simp [buildChunk, ht]
    · simp [buildChunk, ht]

theorem buildChunk_drop (b : Nat) :
    ∀ (k : Nat) (rest : List Msg) (tc cl : Nat),
      k ≤ (buildChunk b rest tc cl).length →
      buildChunk b (rest.drop k) (tc + textTokens (rest.take k)) (cl + k)
        = (buildChunk b rest tc cl).drop k := by
  intro k
  induction k with
  | zero => intro rest tc cl _; simp [textTokens]
  | succ k ih =>
    intro rest tc cl hk
    match rest with
    | [] => simp [buildChunk] at hk
    | msg :: rest =>
      cases ht : hasText msg with
      | true =>
        by_cases hb : tc + msgTokens msg > b ∧ cl > 0
        · rw [buildChunk_cons_stop b msg rest tc cl ht hb] at hk
          simp at hk
        · rw [buildChunk_cons_text b msg rest tc cl ht hb] at hk ⊢
          rw [List.length_cons] at hk
          have hk' : k ≤ (buildChunk b rest (tc + msgTokens msg) (cl + 1)).length := by
            omega
          have hih := ih rest (tc + msgTokens msg) (cl + 1) hk'
          rw [List.drop_succ_cons, List.drop_succ_cons, List.take_succ_cons,
            textTokens_cons_text msg _ ht]
          rw [← hih]
          congr 1 <;> omega
      | false =>
        rw [buildChunk_cons_notext b msg rest tc cl ht] at hk ⊢
        rw [List.length_cons] at hk
        have hk' : k ≤ (buildChunk b rest tc (cl + 1)).length := by omega
        have hih := ih rest tc (cl + 1) hk'
        rw [List.drop_succ_cons, List.drop_succ_cons, List.take_succ_cons,
          textTokens_cons_notext msg _ ht]
        rw [← hih]
        congr 1 <;> omega

theorem buildChunk_length_mono (b : Nat) :
    ∀ (rest : List Msg) (tc1 tc2 cl1 cl2 : Nat), tc1 ≤ tc2 → (cl1 = 0 ∨ 0 < cl2) →
      (buildChunk b rest tc2 cl2).length ≤ (buildChunk b rest tc1 cl1).length := by
  intro rest
  induction rest with
  | nil => intro tc1 tc2 cl1 cl2 _ _; simp [buildChunk]
  | cons msg rest ih =>
    intro tc1 tc2 cl1 cl2 htc hcl
    cases ht : hasText msg with
    | true =>
      by_cases hb2 : tc2 + msgTokens msg > b ∧ cl2 > 0
      · rw [buildChunk_cons_stop b msg rest tc2 cl2 ht hb2]
        simp
      · have hb1 : ¬ (tc1 + msgTokens msg > b ∧ cl1 > 0) := by
          rcases hcl with h0 | hpos
          · omega
          · omega
        rw [buildChunk_cons_text b msg rest tc1 cl1 ht hb1,
          buildChunk_cons_text b msg rest tc2 cl2 ht hb2,
          List.length_cons, List.length_cons]
        have := ih (tc1 + msgTokens msg) (tc2 + msgTokens msg) (cl1 + 1) (cl2 + 1)
          (by omega) (by omega)
        omega
    | false =>
      rw [buildChunk_cons_notext b msg rest tc1 cl1 ht,
        buildChunk_cons_notext b msg rest tc2 cl2 ht,
        List.length_cons, List.length_cons]
      have := ih tc1 tc2 (cl1 + 1) (cl2 + 1) htc (by omega)
      omega

theorem buildChunk_extend (b : Nat) (rest : List Msg) (k : Nat)
    (hk : k ≤ (buildChunk b rest 0 0).length) :
    (buildChunk b rest 0 0).length - k ≤ (buildChunk b (rest.drop k) 0 0).length := by
  have h1 := buildChunk_drop b k rest 0 0 hk
  have h2 := buildChunk_length_mono b (rest.drop k) 0 (0 + textTokens (rest.take k))
    0 (0 + k) (Nat.zero_le _) (Or.inl rfl)
  rw [h1] at h2
  calc (buildChunk b rest 0 0).length - k
      = ((buildChunk b rest 0 0).drop k).length := by
        rw [List.length_drop]
    _ ≤ (buildChunk b (rest.drop k) 0 0).length := h2

theorem createChunksFrom_stop (messages : List Msg) (b o i : Nat)
    (h : ¬ i < messages.length) :
    createChunksFrom messages b o i = [] := by
  rw [createChunksFrom]
  simp [h]

theorem createChunksFrom_step (messages : List Msg) (b o i : Nat)
    (h : i < messages.length)
    (hne : buildChunk b (messages.drop i) 0 0 ≠ []) :
    createChunksFrom messages b o i
      = buildChunk b (messages.drop i) 0 0 ::
        createChunksFrom messages b o
          (i + max 1 ((buildChunk b (messages.drop i) 0 0).length
            - overlapMsgs o (buildChunk b (messages.drop i) 0 0).reverse 0 0)) := by
  rw [createChunksFrom]
  simp [h, hne]

theorem chunkStartsFrom_stop (messages : List Msg) (b o i : Nat)
    (h : ¬ i < messages.length) :
    chunkStartsFrom messages b o i = [] := by
  rw [chunkStartsFrom]
  simp [h]

theorem chunkStartsFrom_step (messages : List Msg) (b o i : Nat)
    (h : i < messages.length)
    (hne : buildChunk b (messages.drop i) 0 0 ≠ []) :
    chunkStartsFrom messages b o i
      = i :: chunkStartsFrom messages b o
          (i + max 1 ((buildChunk b (messages.drop i) 0 0).length
            - overlapMsgs o (buildChunk b (messages.drop i) 0 0).reverse 0 0)) := by
  rw [chunkStartsFrom]
  simp [h, hne]

theorem drop_ne_nil_of_lt (messages : List Msg) (i : Nat) (h : i < messages.length) :
    messages.drop i ≠ [] := by
  intro hnil
  have := congrArg List.length hnil
  rw [List.length_drop] at this
  simp at this
  omega

/-- Reconstruction invariant: from any cursor `i`, re-assembling the chunks
produced by the outer loop, with their duplicated leading overlaps removed,
yields exactly the not-yet-covered tail of the message list. -/
theorem rebuild_createChunksFrom (messages : List Msg) (b o : Nat) (i covered : Nat)
    (hic : i ≤ covered)
    (hcov : i < messages.length →
      covered ≤ i + (buildChunk b (messages.drop i) 0 0).length)
    (hend : messages.length ≤ i → messages.length ≤ covered) :
    rebuildChunks (createChunksFrom messages b o i) (chunkStartsFrom messages b o i)
      covered = messages.drop covered := by
  by_cases h : i < messages.length
  case neg =>
    rw [createChunksFrom_stop messages b o i h, chunkStartsFrom_stop messages b o i h]
    have hlen : messages.length ≤ covered := hend (Nat.le_of_not_lt h)
    have hnil : rebuildChunks ([] : List (List Msg)) ([] : List Nat) covered = [] := rfl
    rw [hnil]
    exact (List.drop_eq_nil_of_le hlen).symm
  case pos =>
    have hne : buildChunk b (messages.drop i) 0 0 ≠ [] :=
      buildChunk_ne_nil b (messages.drop i) 0 (drop_ne_nil_of_lt messages i h)
    have hLpos : 0 < (buildChunk b (messages.drop i) 0 0).length :=
      List.length_pos.mpr hne
    have hLle : (buildChunk b (messages.drop i) 0 0).length ≤ messages.length - i := by
      have := buildChunk_length_le b (messages.drop i) 0 0
      rw [List.length_drop] at this
      exact this
    rw [createChunksFrom_step messages b o i h hne,
      chunkStartsFrom_step messages b o i h hne,
      rebuildChunks]
    have hcov' := hcov h
    have hmax : max covered (i + (buildChunk b (messages.drop i) 0 0).length)
        = i + (buildChunk b (messages.drop i) 0 0).length := by omega
    rw [hmax]
    have ha : 1 ≤ max 1 ((buildChunk b (messages.drop i) 0 0).length
        - overlapMsgs o (buildChunk b (messages.drop i) 0 0).reverse 0 0) :=
      le_max_left _ _
    have haL : max 1 ((buildChunk b (messages.drop i) 0 0).length
        - overlapMsgs o (buildChunk b (messages.drop i) 0 0).reverse 0 0)
        ≤ (buildChunk b (messages.drop i) 0 0).length := by omega
    have hext := buildChunk_extend b (messages.drop i)
      (max 1 ((buildChunk b (messages.drop i) 0 0).length
        - overlapMsgs o (buildChunk b (messages.drop i) 0 0).reverse 0 0)) haL
    rw [List.drop_drop] at hext
    have hrec := rebuild_createChunksFrom messages b o
      (i + max 1 ((buildChunk b (messages.drop i) 0 0).length
        - overlapMsgs o (buildChunk b (messages.drop i) 0 0).reverse 0 0))
      (i + (buildChunk b (messages.drop i) 0 0).length)
      (by omega)
      (by
        intro _
        omega)
      (by omega)
    rw [hrec]
    have hchunk := buildChunk_take b (messages.drop i) 0 0
    have hci : i + (covered - i) = covered := by omega
    have hlen2 : (buildChunk b (messages.drop i) 0 0).length - (covered - i)
        = (i + (buildChunk b (messages.drop i) 0 0).length) - covered := by omega
    have hdrop : (buildChunk b (messages.drop i) 0 0).drop (covered - i)
        = (messages.drop covered).take
            ((i + (buildChunk b (messages.drop i) 0 0).length) - covered) := by
      conv_lhs => rw [hchunk]
      rw [List.drop_take, List.drop_drop, hci, hlen2]
    rw [hdrop]
    have hsplit := List.take_append_drop
      ((i + (buildChunk b (messages.drop i) 0 0).length) - covered)
      (messages.drop covered)
    rw [List.drop_drop] at hsplit
    have hcd : covered + ((i + (buildChunk b (messages.drop i) 0 0).length) - covered)
        = i + (buildChunk b (messages.drop i) 0 0).length := by omega
    rw [hcd] at hsplit
    exact hsplit
termination_by messages.length - i
decreasing_by
  omega

/-- Each chunk is the contiguous block of messages starting at its cursor
position. -/
theorem forall2_createChunksFrom (messages : List Msg) (b o : Nat) (i : Nat) :
    List.Forall₂ (fun c s => c = (messages.drop s).take c.length)
      (createChunksFrom messages b o i) (chunkStartsFrom messages b o i) := by
  by_cases h : i < messages.length
  case neg =>
    rw [createChunksFrom_stop messages b o i h, chunkStartsFrom_stop messages b o i h]
    exact List.Forall₂.nil
  case pos =>
    have hne : buildChunk b (messages.drop i) 0 0 ≠ [] :=
      buildChunk_ne_nil b (messages.drop i) 0 (drop_ne_nil_of_lt messages i h)
    rw [createChunksFrom_step messages b o i h hne,
      chunkStartsFrom_step messages b o i h hne]
    have ha : 1 ≤ max 1 ((buildChunk b (messages.drop i) 0 0).length
        - overlapMsgs o (buildChunk b (messages.drop i) 0 0).reverse 0 0) :=
      le_max_left _ _
    exact List.Forall₂.cons (buildChunk_take b (messages.drop i) 0 0)
      (forall2_createChunksFrom messages b o _)
termination_by messages.length - i
decreasing_by
  omega

/-- Every start position emitted from cursor `i` is at least `i`. -/
theorem chunkStartsFrom_ge (messages : List Msg) (b o : Nat) (i : Nat) :
    ∀ s ∈ chunkStartsFrom messages b o i, i ≤ s := by
  by_cases h : i < messages.length
  case neg =>
    rw [chunkStartsFrom_stop messages b o i h]
    intro s hs
    simp at hs
  case pos =>
    have hne : buildChunk b (messages.drop i) 0 0 ≠ [] :=
      buildChunk_ne_nil b (messages.drop i) 0 (drop_ne_nil_of_lt messages i h)
    rw [chunkStartsFrom_step messages b o i h hne]
    intro s hs
    have ha : 1 ≤ max 1 ((buildChunk b (messages.drop i) 0 0).length
        - overlapMsgs o (buildChunk b (messages.drop i) 0 0).reverse 0 0) :=
      le_max_left _ _
    rcases List.mem_cons.mp hs with rfl | hs'
    · exact le_refl _
    · have := chunkStartsFrom_ge messages b o
        (i + max 1 ((buildChunk b (messages.drop i) 0 0).length
          - overlapMsgs o (buildChunk b (messages.drop i) 0 0).reverse 0 0)) s hs'
      omega
termination_by messages.length - i
decreasing_by
  omega

/-- The chunk start positions are strictly increasing. -/
theorem chunkStartsFrom_chain (messages : List Msg) (b o : Nat) (i : Nat) :
    List.Chain' (· < ·) (chunkStartsFrom messages b o i) := by
  by_cases h : i < messages.length
  case neg =>
    rw [chunkStartsFrom_stop messages b o i h]
    exact List.chain'_nil
  case pos =>
    have hne : buildChunk b (messages.drop i) 0 0 ≠ [] :=
      buildChunk_ne_nil b (messages.drop i) 0 (drop_ne_nil_of_lt messages i h)
    rw [chunkStartsFrom_step messages b o i h hne]
    have ha : 1 ≤ max 1 ((buildChunk b (messages.drop i) 0 0).length
        - overlapMsgs o (buildChunk b (messages.drop i) 0 0).reverse 0 0) :=
      le_max_left _ _
    rw [List.chain'_cons']
    constructor
    · intro y hy
      have hmem : y ∈ chunkStartsFrom messages b o
          (i + max 1 ((buildChunk b (messages.drop i) 0 0).length
            - overlapMsgs o (buildChunk b (messages.drop i) 0 0).reverse 0 0)) :=
        List.mem_of_mem_head? hy
      have := chunkStartsFrom_ge messages b o _ y hmem
      omega
    · exact chunkStartsFrom_chain messages b o _
termination_by messages.length - i
decreasing_by
  omega

theorem mem_rebuildChunks :
    ∀ (cs : List (List Msg)) (ss : List Nat) (cov : Nat) (x : Msg),
      x ∈ rebuildChunks cs ss cov → ∃ c ∈ cs, x ∈ c := by
  intro cs
  induction cs with
  | nil =>
    intro ss cov x hx
    cases ss <;> simp [rebuildChunks] at hx
  | cons c cs ih =>
    intro ss cov x hx
    cases ss with
    | nil => simp [rebuildChunks] at hx
    | cons s ss =>
      rw [rebuildChunks] at hx
      rcases List.mem_append.mp hx with h1 | h2
      · exact ⟨c, List.mem_cons_self _ _, List.mem_of_mem_drop h1⟩
      · rcases ih ss _ x h2 with ⟨c', hc', hx'⟩
        exact ⟨c', List.mem_cons_of_mem _ hc', hx'⟩

theorem createChunksFrom_length (messages : List Msg) (b o : Nat) (i : Nat) :
    (createChunksFrom messages b o i).length ≤ messages.length - i := by
  by_cases h : i < messages.length
  case neg =>
    rw [createChunksFrom_stop messages b o i h]
    simp
  case pos =>
    have hne : buildChunk b (messages.drop i) 0 0 ≠ [] :=
      buildChunk_ne_nil b (messages.drop i) 0 (drop_ne_nil_of_lt messages i h)
    rw [createChunksFrom_step messages b o i h hne]
    have ha : 1 ≤ max 1 ((buildChunk b (messages.drop i) 0 0).length
        - overlapMsgs o (buildChunk b (messages.drop i) 0 0).reverse 0 0) :=
      le_max_left _ _
    have := createChunksFrom_length messages b o
      (i + max 1 ((buildChunk b (messages.drop i) 0 0).length
        - overlapMsgs o (buildChunk b (messages.drop i) 0 0).reverse 0 0))
    rw [List.length_cons]
    omega
termination_by messages.length - i
decreasing_by
  omega

theorem createChunks_rebuild (messages : List Msg) (b o : Nat) :
    rebuildChunks (createChunks messages b o) (chunkStarts messages b o) 0
      = messages := by
  by_cases hm : messages = []
  · subst hm
    rfl
  · unfold createChunks chunkStarts
    rw [if_neg hm, if_neg hm]
    have := rebuild_createChunksFrom messages b o 0 0 (le_refl 0)
      (fun _ => Nat.zero_le _) (fun hl => hl)
    simpa using this

theorem createChunks_chain (messages : List Msg) (b o : Nat) :
    List.Chain' (· < ·) (chunkStarts messages b o) := by
  by_cases hm : messages = []
  · subst hm
    simp [chunkStarts]
  · unfold chunkStarts
    rw [if_neg hm]
    exact chunkStartsFrom_chain messages b o 0

theorem createChunks_forall2 (messages : List Msg) (b o : Nat) :
    List.Forall₂ (fun c s => c = (messages.drop s).take c.length)
      (createChunks messages b o) (chunkStarts messages b o) := by
  by_cases hm : messages = []
  · subst hm
    simp [createChunks, chunkStarts]
  · unfold createChunks chunkStarts
    rw [if_neg hm, if_neg hm]
    exact forall2_createChunksFrom messages b o 0

/-- C3.  For every input message list and every token and overlap budget,
the chunks of `_create_chunks` tile the input: re-assembling them while
removing each chunk's duplicated leading overlap reproduces the original
message sequence exactly, the chunk start positions are strictly
increasing (chronological order, no re-ordering), and each chunk is the
contiguous block of the input that begins at its start position (no gap,
no drop). -/
theorem createChunks_reconstructs_input (messages : List Msg) (b o : Nat) :
    rebuildChunks (createChunks messages b o) (chunkStarts messages b o) 0 = messages
    ∧ List.Chain' (· < ·) (chunkStarts messages b o)
    ∧ List.Forall₂ (fun c s => c = (messages.drop s).take c.length)
        (createChunks messages b o) (chunkStarts messages b o) :=
  ⟨createChunks_rebuild messages b o, createChunks_chain messages b o,
    createChunks_forall2 messages b o⟩

/-- C4.  For every non-empty message list and any budgets, `_create_chunks`
terminates having produced at least one and at most `len(messages)` chunks
(each outer-loop iteration advances the cursor by at least one position, the
last conjunct), and no message is dropped: every input message — including
one whose token estimate alone exceeds the budget — is force-included in
some chunk. -/
theorem createChunks_progress (messages : List Msg) (b o : Nat)
    (h : messages ≠ []) :
    createChunks messages b o ≠ []
    ∧ (createChunks messages b o).length ≤ messages.length
    ∧ (∀ x ∈ messages, ∃ c ∈ createChunks messages b o, x ∈ c)
    ∧ (∀ i, i < messages.length →
        i + 1 ≤ i + max 1 ((buildChunk b (messages.drop i) 0 0).length
          - overlapMsgs o (buildChunk b (messages.drop i) 0 0).reverse 0 0)) := by
  have hlen : 0 < messages.length := List.length_pos.mpr h
  refine ⟨?_, ?_, ?_, ?_⟩
  · unfold createChunks
    rw [if_neg h]
    have hne : buildChunk b (messages.drop 0) 0 0 ≠ [] :=
      buildChunk_ne_nil b (messages.drop 0) 0 (drop_ne_nil_of_lt messages 0 hlen)
    rw [createChunksFrom_step messages b o 0 hlen hne]
    exact List.cons_ne_nil _ _
  · unfold createChunks
    rw [if_neg h]
    have := createChunksFrom_length messages b o 0
    omega
  · intro x hx
    have hre := createChunks_rebuild messages b o
    rw [← hre] at hx
    exact mem_rebuildChunks _ _ _ x hx
  · intro i _
    have : 1 ≤ max 1 ((buildChunk b (messages.drop i) 0 0).length
        - overlapMsgs o (buildChunk b (messages.drop i) 0 0).reverse 0 0) :=
      le_max_left _ _
    omega

/-- A message whose token estimate `(30 + 20) // 4 = 12` alone exceeds a
token budget of 1. -/
def bigMsg : Msg :=
  { text := "aaaaaaaaaaaaaaaaaaaaaaaaaaaaaa", is_from_me := true,
    date_formatted := "", payload := 0 }

theorem createChunks_progress_witness :
    createChunks [bigMsg] 1 0 ≠ []
    ∧ (createChunks [bigMsg] 1 0).length ≤ [bigMsg].length :=
  ⟨(createChunks_progress [bigMsg] 1 0 (by decide)).1,
    (createChunks_progress [bigMsg] 1 0 (by decide)).2.1⟩

theorem buildChunk_all_notext (b : Nat) :
    ∀ (rest : List Msg) (tc cl : Nat), (∀ x ∈ rest, hasText x = false) →
      buildChunk b rest tc cl = rest := by
  intro rest
  induction rest with
  | nil => intro tc cl _; rfl
  | cons msg rest ih =>
    intro tc cl hall
    rw [buildChunk_cons_notext b msg rest tc cl (hall msg (List.mem_cons_self _ _))]
    exact congrArg (msg :: ·)
      (ih tc (cl + 1) (fun x hx => hall x (List.mem_cons_of_mem _ hx)))

theorem overlapMsgs_all_notext (o : Nat) :
    ∀ (l : List Msg) (ot acc : Nat), (∀ x ∈ l, hasText x = false) →
      overlapMsgs o l ot acc = acc := by
  intro l
  induction l with
  | nil => intro ot acc _; rfl
  | cons msg l ih =>
    intro ot acc hall
    have hm : hasText msg = false := hall msg (List.mem_cons_self _ _)
    simp only [overlapMsgs, hm, Bool.false_eq_true, if_false]
    exact ih ot acc (fun x hx => hall x (List.mem_cons_of_mem _ hx))

theorem textTokens_all_notext :
    ∀ (l : List Msg), (∀ x ∈ l, hasText x = false) → textTokens l = 0 := by
  intro l
  induction l with
  | nil => intro _; rfl
  | cons msg l ih =>
    intro hall
    rw [textTokens_cons_notext msg l (hall msg (List.mem_cons_self _ _))]
    exact ih (fun x hx => hall x (List.mem_cons_of_mem _ hx))

/-- A message with an empty (modelling a missing) `'text'` field. -/
def emptyMsg1 : Msg :=
  { text := "", is_from_me := true, date_formatted := "", payload := 1 }

/-- A second text-less message, distinct from `emptyMsg1`. -/
def emptyMsg2 : Msg :=
  { text := "", is_from_me := false, date_formatted := "", payload := 2 }

/-- C10, counterexample.  The claim quantifies over every `n`, but for
`n = 0` the input of zero text-less messages yields zero chunks, not
"exactly one chunk containing all `n` messages". -/
theorem createChunks_textless_zero_counterexample :
    createChunks (List.replicate 0 emptyMsg1) 450 45 = []
    ∧ createChunks (List.replicate 0 emptyMsg1) 450 45
        ≠ [List.replicate 0 emptyMsg1] := by
  constructor
  · rfl
  · decide

/-- C10, amended.  A message without text is appended to the current chunk
at zero token cost and never counted toward the backward overlap, so the
token budget does not bound chunk length: for every non-empty list of
text-less messages and any budgets, `_create_chunks` returns exactly one
chunk containing all the messages. -/
theorem createChunks_textless_single_chunk (msgs : List Msg) (b o : Nat)
    (hne : msgs ≠ []) (hall : ∀ x ∈ msgs, x.text = "") :
    createChunks msgs b o = [msgs]
    ∧ textTokens msgs = 0
    ∧ overlapMsgs o msgs.reverse 0 0 = 0 := by
  have hx : ∀ x ∈ msgs, hasText x = false := by
    intro x hmem
    simp [hasText, hall x hmem]
  have hxrev : ∀ x ∈ msgs.reverse, hasText x = false := by
    intro x hmem
    exact hx x (List.mem_reverse.mp hmem)
  have hlen : 0 < msgs.length := List.length_pos.mpr hne
  refine ⟨?_, textTokens_all_notext msgs hx, overlapMsgs_all_notext o msgs.reverse 0 0 hxrev⟩
  unfold createChunks
  rw [if_neg hne]
  have hbc : buildChunk b (msgs.drop 0) 0 0 = msgs := by
    rw [List.drop_zero]
    exact buildChunk_all_notext b msgs 0 0 hx
  have hne2 : buildChunk b (msgs.drop 0) 0 0 ≠ [] := by
    rw [hbc]
    exact hne
  rw [createChunksFrom_step msgs b o 0 hlen hne2, hbc]
  rw [overlapMsgs_all_notext o msgs.reverse 0 0 hxrev]
  have hadv : 0 + max 1 (msgs.length - 0) = msgs.length := by omega
  rw [hadv]
  rw [createChunksFrom_stop msgs b o msgs.length (lt_irrefl _)]

theorem createChunks_textless_single_chunk_witness :
    createChunks [emptyMsg1, emptyMsg2] 1 0 = [[emptyMsg1, emptyMsg2]]
    ∧ textTokens [emptyMsg1, emptyMsg2] = 0
    ∧ overlapMsgs 0 [emptyMsg1, emptyMsg2].reverse 0 0 = 0 :=
  createChunks_textless_single_chunk [emptyMsg1, emptyMsg2] 1 0 (by decide)
    (by decide)

/-! Character-level models of the Python string operations and regular
expressions used by `validate_metrics` (`src/weekly_metrics_analyzer.py`
lines 258-333).  The response texts scanned there are ASCII, so the
character classes are modelled on their ASCII parts. -/

/-- Python regex class `\s` (ASCII part). -/
def pyIsSpace (c : Char) : Bool :=
  c = ' ' ∨ c = '\t' ∨ c = '\n' ∨ c = '\r' ∨ c = '\x0b' ∨ c = '\x0c'

/-- Python regex class `\d` (ASCII part). -/
def pyIsDigit (c : Char) : Bool := '0' ≤ c ∧ c ≤ '9'

/-- Python regex class `\w` (ASCII part). -/
def pyIsWord (c : Char) : Bool :=
  ('a' ≤ c ∧ c ≤ 'z') ∨ ('A' ≤ c ∧ c ≤ 'Z') ∨ pyIsDigit c ∨ c = '_'

/-- Regex class `[\w\s]`. -/
def pyIsWordOrSpace (c : Char) : Bool := pyIsWord c || pyIsSpace c

/-- Literal match: does `lit` occur as a prefix of `cs`? -/
def litPre : List Char → List Char → Bool
  | [], _ => true
  | _ :: _, [] => false
  | a :: as, b :: bs => a = b && litPre as bs

/-- Consume the literal `lit` at the head of `cs`, returning the rest. -/
def dropLit (lit cs : List Char) : Option (List Char) :=
  if litPre lit cs then some (cs.drop lit.length) else none

/-- The `re.search` scan: try a position matcher at every start position,
leftmost first. -/
def firstMatch {β : Type} (f : List Char → Option β) : List Char → Option β
  | [] => f []
  | c :: rest =>
    match f (c :: rest) with
    | some b => some b
    | none => firstMatch f rest

/-- Python substring test `needle in hay`. -/
def strContains (hay needle : String) : Bool :=
  (firstMatch (fun cs => if litPre needle.data cs then some () else none)
    hay.data).isSome

/-- Value of a digit string, as `int()` computes it on a `\d+` capture. -/
def digitsToNat (ds : List Char) : Nat :=
  ds.foldl (fun n c => n * 10 + (c.toNat - '0'.toNat)) 0

/-- Anchored model of `Positive:\s*(\d+)/100`: the literal, then greedy
whitespace, then at least one digit (captured, greedy), then `/100`.
Backtracking is not observable here because `\s`, `\d` and the following
literal characters are disjoint. -/
def matchPositiveAt (cs : List Char) : Option Nat :=
  match dropLit "Positive:".data cs with
  | none => none
  | some r1 =>
    let r2 := r1.dropWhile pyIsSpace
    let ds := r2.takeWhile pyIsDigit
    if ds = [] then none
    else if litPre "/100".data (r2.drop ds.length) then some (digitsToNat ds)
    else none

/-- Anchored model of `(?:\*\*)?WHO(?:\*\*)?:` — the four alternatives are
mutually exclusive at a fixed position, tried in the regex preference
order. -/
def matchHeaderAt (who : List Char) (cs : List Char) : Option (List Char) :=
  match dropLit (('*' :: '*' :: who) ++ ['*', '*', ':']) cs with
  | some r => some r
  | none =>
    match dropLit (('*' :: '*' :: who) ++ [':']) cs with
    | some r => some r
    | none =>
      match dropLit (who ++ ['*', '*', ':']) cs with
      | some r => some r
      | none => dropLit (who ++ [':']) cs

/-- Model of `re.search(r'(?:\*\*)?WHO(?:\*\*)?:.*?Positive:\s*(\d+)/100',
text, re.DOTALL)` (lines 285-286 with `WHO` = `YOU` or `THEM`): leftmost
position where the header matches and some later position completes
`Positive:\s*(\d+)/100` (the lazy `.*?` selects the first such one). -/
def sentimentScoreSearch (who : String) (cs : List Char) : Option Nat :=
  firstMatch (fun suf =>
    match matchHeaderAt who.data suf with
    | some rest => firstMatch matchPositiveAt rest
    | none => none) cs

/-- Minimal extension of the lazy group `([\w\s]+?)` until the terminator
`(?:\n|$)` (a newline, preferred, or the end of the string). -/
def toneGroupExtend (acc : List Char) : List Char → Option (List Char)
  | [] => some acc
  | c :: rest =>
    if c = '\n' then some acc
    else if pyIsWordOrSpace c then toneGroupExtend (acc ++ [c]) rest
    else none

/-- The lazy group `([\w\s]+?)(?:\n|$)` anchored at `cs`: at least one
word-or-space character, then minimally extended to a terminator. -/
def toneGroupFrom : List Char → Option (List Char)
  | [] => none
  | c :: rest => if pyIsWordOrSpace c then toneGroupExtend [c] rest else none

/-- Backtracking over the greedy `\s*` that precedes the lazy tone group:
the whitespace run is given up from longest to shortest. -/
def toneCaptureLoop (r1 : List Char) : Nat → Option (List Char)
  | 0 => toneGroupFrom r1
  | Nat.succ w =>
    match toneGroupFrom (r1.drop (Nat.succ w)) with
    | some g => some g
    | none => toneCaptureLoop r1 w

/-- Anchored model of `\s*([\w\s]+?)(?:\n|$)` right after the literal
`Overall Tone:`. -/
def toneCapture (r1 : List Char) : Option (List Char) :=
  toneCaptureLoop r1 (r1.takeWhile pyIsSpace).length

/-- Model of `re.search(r'Overall Tone:\s*([\w\s]+?)(?:\n|$)', text)`
(line 311 — note the pattern is not anchored to the `YOU` block). -/
def overallToneSearch (cs : List Char) : Option (List Char) :=
  firstMatch (fun suf =>
    match dropLit "Overall Tone:".data suf with
    | some r1 => toneCapture r1
    | none => none) cs

/-- Model of `re.search(r'THEM.*?Overall Tone:\s*([\w\s]+?)(?:\n|$)',
text, re.DOTALL)` (line 312): first `THEM`, then the first completing
`Overall Tone:` match after it. -/
def themToneSearch (cs : List Char) : Option (List Char) :=
  firstMatch (fun suf =>
    match dropLit "THEM".data suf with
    | some rest => overallToneSearch rest
    | none => none) cs

/-- Python `str.strip()` (whitespace both ends). -/
def pyStrip (cs : List Char) : List Char :=
  ((cs.dropWhile pyIsSpace).reverse.dropWhile pyIsSpace).reverse

/-- ASCII uppercase of one character. -/
def upperChar (c : Char) : Char :=
  if 'a' ≤ c ∧ c ≤ 'z' then Char.ofNat (c.toNat - 32) else c

/-- ASCII lowercase of one character. -/
def lowerChar (c : Char) : Char :=
  if 'A' ≤ c ∧ c ≤ 'Z' then Char.ofNat (c.toNat + 32) else c

/-- Python `str.upper()` on ASCII text. -/
def pyUpper (cs : List Char) : List Char := cs.map upperChar

/-- Python `str.lower()` on ASCII text. -/
def pyLower (s : String) : String := String.mk (s.data.map lowerChar)

/-- One match of `\[\d{4}-\d{2}-\d{2}` anchored at the head (always 11
characters long). -/
def citationAt : List Char → Bool
  | '[' :: a :: b :: c :: d :: '-' :: e :: f :: '-' :: g :: h :: _ =>
    pyIsDigit a && pyIsDigit b && pyIsDigit c && pyIsDigit d && pyIsDigit e &&
      pyIsDigit f && pyIsDigit g && pyIsDigit h
  | _ => false

/-- Model of `len(re.findall(r'\[\d{4}-\d{2}-\d{2}', text))` (line 297):
non-overlapping matches counted left to right. -/
def countCitations : List Char → Nat
  | [] => 0
  | c :: rest =>
    if citationAt (c :: rest) then 1 + countCitations (rest.drop 10)
    else countCitations rest
termination_by l => l.length
decreasing_by
  all_goals simp [List.length_drop]
  omega

/-- Model of `re.search(r'References:|et al\.|Ekman|Russell|Frijda', text)`
(line 302) viewed as a Boolean. -/
def hasAcademicRefs (s : String) : Bool :=
  strContains s "References:" || strContains s "et al." ||
    strContains s "Ekman" || strContains s "Russell" || strContains s "Frijda"

/-- The validation record returned by `validate_metrics`. -/
structure Validation where
  is_valid : Bool
  errors : List String
  warnings : List String
deriving DecidableEq, Repr

/-- The seven required section headers (lines 269-277). -/
def requiredSections : List String :=
  ["SENTIMENT SCORES", "PERSONALITY TRAITS", "PSYCHOLOGICAL TRAITS",
    "EMOTIONAL STATES", "ARCHETYPE DISTRIBUTION", "COMMUNICATION METRICS",
    "RELATIONSHIP EVOLUTION"]

/-- The tone string compared against the label lists:
`group(1).strip().upper()`. -/
def canonTone (cap : List Char) : String := String.mk (pyUpper (pyStrip cap))

/-- The cross-field consistency block of `validate_metrics` for one
speaker (lines 314-331): if a tone was captured, a score of at least 70
must carry a POSITIVE-family label and (`elif`) a score of at most 40 a
NEGATIVE-family label; a violation appends one error. -/
def toneConsistencyErrors (who : String) (pos : Nat) (toneOpt : Option (List Char)) :
    List String :=
  match toneOpt with
  | none => []
  | some captured =>
    let tone := canonTone captured
    if pos ≥ 70 ∧ ¬ (tone = "POSITIVE" ∨ tone = "VERY POSITIVE") then
      [s!"{who} sentiment score ({pos}) suggests POSITIVE but tone is \x27{tone}\x27"]
    else if pos ≤ 40 ∧ ¬ (tone = "NEGATIVE" ∨ tone = "VERY NEGATIVE") then
      [s!"{who} sentiment score ({pos}) suggests NEGATIVE but tone is \x27{tone}\x27"]
    else []

/-- Model of `WeeklyMetricsAnalyzer.validate_metrics(response_text)`
(`src/weekly_metrics_analyzer.py` lines 258-333).  The source sets
`is_valid = False` exactly at the points where it appends to `errors`, so
`is_valid` equals the emptiness of the collected error list. -/
def validate_metrics (response_text : String) : Validation :=
  let cs := response_text.data
  let sectionErrors := requiredSections.filterMap (fun sec =>
    if strContains response_text sec then none
    else some (s!"Missing required section: {sec}"))
  let you_sentiment := sentimentScoreSearch "YOU" cs
  let them_sentiment := sentimentScoreSearch "THEM" cs
  let parseErrors :=
    (match you_sentiment with
     | none => ["Could not parse YOU sentiment scores"]
     | some _ => []) ++
    (match them_sentiment with
     | none => ["Could not parse THEM sentiment scores"]
     | some _ => [])
  let citationWarnings :=
    if countCitations cs < 3 then
      [s!"Only {countCitations cs} citations found, expected at least 3"]
    else []
  let academicWarnings :=
    if hasAcademicRefs response_text then
      ["Found possible academic references (should be citations only)"]
    else []
  let toneErrors :=
    match you_sentiment, them_sentiment with
    | some you_pos, some them_pos =>
      toneConsistencyErrors "YOU" you_pos (overallToneSearch cs) ++
        toneConsistencyErrors "THEM" them_pos (themToneSearch cs)
    | _, _ => []
  let errors := sectionErrors ++ parseErrors ++ toneErrors
  { is_valid := errors.isEmpty,
    errors := errors,
    warnings := citationWarnings ++ academicWarnings }

theorem validate_metrics_errors_eq (s : String) :
    (validate_metrics s).errors
      = requiredSections.filterMap (fun sec =>
          if strContains s sec then none
          else some (s!"Missing required section: {sec}"))
        ++ ((match sentimentScoreSearch "YOU" s.data with
             | none => ["Could not parse YOU sentiment scores"]
             | some _ => []) ++
            (match sentimentScoreSearch "THEM" s.data with
             | none => ["Could not parse THEM sentiment scores"]
             | some _ => []))
        ++ (match sentimentScoreSearch "YOU" s.data,
              sentimentScoreSearch "THEM" s.data with
            | some you_pos, some them_pos =>
              toneConsistencyErrors "YOU" you_pos (overallToneSearch s.data) ++
                toneConsistencyErrors "THEM" them_pos (themToneSearch s.data)
            | _, _ => []) := rfl

theorem validate_metrics_is_valid_eq (s : String) :
    (validate_metrics s).is_valid = (validate_metrics s).errors.isEmpty := rfl

theorem validate_metrics_valid_iff_no_errors (s : String) :
    (validate_metrics s).is_valid = true ↔ (validate_metrics s).errors = [] := by
  rw [validate_metrics_is_valid_eq]
  exact List.isEmpty_iff

/-- A week-47 style response in which both speakers report
`Positive: 20/100` yet label the overall tone `POSITIVE`. -/
def responseScore20 : String :=
  "SENTIMENT SCORES\nPERSONALITY TRAITS\nPSYCHOLOGICAL TRAITS\nEMOTIONAL STATES\nARCHETYPE DISTRIBUTION\nCOMMUNICATION METRICS\nRELATIONSHIP EVOLUTION\nYOU:\nPositive: 20/100\nOverall Tone: POSITIVE\nTHEM:\nPositive: 20/100\nOverall Tone: POSITIVE\n"

/-- The same response with scores of `85/100`, consistently labelled
`POSITIVE`. -/
def responseScore85 : String :=
  "SENTIMENT SCORES\nPERSONALITY TRAITS\nPSYCHOLOGICAL TRAITS\nEMOTIONAL STATES\nARCHETYPE DISTRIBUTION\nCOMMUNICATION METRICS\nRELATIONSHIP EVOLUTION\nYOU:\nPositive: 85/100\nOverall Tone: POSITIVE\nTHEM:\nPositive: 85/100\nOverall Tone: POSITIVE\n"

/-- C2.  `validate_metrics` marks a response invalid when a speaker's
Positive score is 20/100 but the Overall Tone is POSITIVE (appending a
mismatch error), accepts 85/100 paired with POSITIVE, and, in general, the
cross-field consistency check of a captured tone produces an error exactly
when the score is at least 70 without a POSITIVE/VERY POSITIVE label, or at
most 40 without a NEGATIVE/VERY NEGATIVE label. -/
theorem validate_metrics_tone_threshold_rule :
    ((validate_metrics responseScore20).is_valid = false
      ∧ "YOU sentiment score (20) suggests NEGATIVE but tone is \x27POSITIVE\x27"
          ∈ (validate_metrics responseScore20).errors)
    ∧ ((validate_metrics responseScore85).is_valid = true
      ∧ (validate_metrics responseScore85).errors = [])
    ∧ (∀ (who : String) (pos : Nat) (cap : List Char),
        toneConsistencyErrors who pos (some cap) ≠ [] ↔
          ((70 ≤ pos ∧ ¬ (canonTone cap = "POSITIVE" ∨ canonTone cap = "VERY POSITIVE"))
            ∨ (pos ≤ 40 ∧
                ¬ (canonTone cap = "NEGATIVE" ∨ canonTone cap = "VERY NEGATIVE")))) := by
  refine ⟨⟨by decide, by decide⟩, ⟨by decide, by decide⟩, ?_⟩
  intro who pos cap
  unfold toneConsistencyErrors
  by_cases h1 : 70 ≤ pos ∧ ¬ (canonTone cap = "POSITIVE" ∨ canonTone cap = "VERY POSITIVE")
  · simp only [ge_iff_le, if_pos h1]
    simp only [ne_eq, List.cons_ne_nil, not_false_eq_true, true_iff]
    exact Or.inl h1
  · by_cases h2 : pos ≤ 40 ∧ ¬ (canonTone cap = "NEGATIVE" ∨ canonTone cap = "VERY NEGATIVE")
    · simp only [ge_iff_le, if_neg h1, if_pos h2]
      simp only [ne_eq, List.cons_ne_nil, not_false_eq_true, true_iff]
      exact Or.inr h2
    · simp only [ge_iff_le, if_neg h1, if_neg h2]
      simp only [ne_eq, not_true_eq_false, false_iff]
      tauto

/-- C8.  `validate_metrics` is a total function of the response string: for
every string it returns a `{is_valid, errors, warnings}` record in which
`is_valid` is exactly the absence of errors, and the failure modes —
unparseable sentiment scores and missing required sections — surface as
entries of `errors` rather than as exceptions. -/
theorem validate_metrics_total (s : String) :
    ((validate_metrics s).is_valid = true ↔ (validate_metrics s).errors = [])
    ∧ (sentimentScoreSearch "YOU" s.data = none →
        "Could not parse YOU sentiment scores" ∈ (validate_metrics s).errors)
    ∧ (sentimentScoreSearch "THEM" s.data = none →
        "Could not parse THEM sentiment scores" ∈ (validate_metrics s).errors)
    ∧ (∀ sec ∈ requiredSections, strContains s sec = false →
        s!"Missing required section: {sec}" ∈ (validate_metrics s).errors) := by
  refine ⟨validate_metrics_valid_iff_no_errors s, ?_, ?_, ?_⟩
  · intro hnone
    rw [validate_metrics_errors_eq]
    refine List.mem_append.mpr (Or.inl (List.mem_append.mpr (Or.inr ?_)))
    rw [hnone]
    exact List.mem_append.mpr (Or.inl (List.mem_cons_self _ _))
  · intro hnone
    rw [validate_metrics_errors_eq]
    refine List.mem_append.mpr (Or.inl (List.mem_append.mpr (Or.inr ?_)))
    rw [hnone]
    refine List.mem_append.mpr (Or.inr ?_)
    cases sentimentScoreSearch "YOU" s.data <;>
      exact List.mem_cons_self _ _
  · intro sec hsec hmiss
    rw [validate_metrics_errors_eq]
    refine List.mem_append.mpr (Or.inl (List.mem_append.mpr (Or.inl ?_)))
    refine List.mem_filterMap.mpr ⟨sec, hsec, ?_⟩
    rw [hmiss]
    rfl

theorem validate_metrics_total_witness :
    "Could not parse YOU sentiment scores" ∈ (validate_metrics "garbage").errors :=
  (validate_metrics_total "garbage").2.1 (by decide)

/-- Observable outcome of the per-week retry loop of
`analyze_conversation_weekly`: the number of inference calls made (one per
loop iteration, equal to `len(prompt_versions)`), the final `retry_count`,
and the validation verdict of the analysis that is kept and appended to
`all_analyses`. -/
structure RetryOutcome where
  attempts : Nat
  retry_count : Nat
  final_is_valid : Bool
  final_errors : List String
deriving DecidableEq, Repr

/-- The `while retry_count <= max_retries` loop of
`analyze_conversation_weekly` (`src/weekly_metrics_analyzer.py` lines
478-579).  The inference collaborator is abstracted as `resp`, giving the
response text of the n-th attempt (0-based); prompt escalation and the
meta-LLM refinement only change the prompts sent, which `resp` absorbs.
Each iteration makes exactly one inference call and validates its response
with `validate_metrics`; on success the loop breaks keeping the valid
analysis; otherwise it increments `retry_count` while
`retry_count < max_retries` and breaks keeping the flagged analysis once
the ceiling is reached. -/
def weeklyRetryLoop (resp : Nat → String) (max_retries retry_count attempts : Nat) :
    RetryOutcome :=
  if retry_count ≤ max_retries then
    let validation := validate_metrics (resp attempts)
    if validation.is_valid then
      ⟨attempts + 1, retry_count, true, validation.errors⟩
    else if retry_count < max_retries then
      weeklyRetryLoop resp max_retries (retry_count + 1) (attempts + 1)
    else
      ⟨attempts + 1, retry_count, false, validation.errors⟩
  else
    ⟨attempts, retry_count, false, []⟩
termination_by max_retries + 1 - retry_count
decreasing_by
  omega

/-- Entry into the retry loop with `retry_count = 0` and no attempts made,
as `analyze_conversation_weekly` does for each week (default
`max_retries = 5`). -/
def analyzeWeekWithRetries (resp : Nat → String) (max_retries : Nat) : RetryOutcome :=
  weeklyRetryLoop resp max_retries 0 0

theorem weeklyRetryLoop_always_invalid (resp : Nat → String) (max_retries : Nat)
    (hinv : ∀ n, (validate_metrics (resp n)).is_valid = false)
    (retry_count attempts : Nat) (hrc : retry_count ≤ max_retries) :
    weeklyRetryLoop resp max_retries retry_count attempts
      = ⟨attempts + (max_retries - retry_count) + 1, max_retries, false,
          (validate_metrics (resp (attempts + (max_retries - retry_count)))).errors⟩ := by
  rw [weeklyRetryLoop]
  rw [if_pos hrc]
  simp only [hinv attempts, Bool.false_eq_true, if_false]
  by_cases hlt : retry_count < max_retries
  · rw [if_pos hlt]
    have := weeklyRetryLoop_always_invalid resp max_retries hinv (retry_count + 1)
      (attempts + 1) (by omega)
    rw [this]
    have h1 : attempts + 1 + (max_retries - (retry_count + 1))
        = attempts + (max_retries - retry_count) := by omega
    rw [h1]
  · rw [if_neg hlt]
    have heq : retry_count = max_retries := by omega
    subst heq
    have h0 : retry_count - retry_count = 0 := by omega
    rw [h0]
    simp
termination_by max_retries + 1 - retry_count
decreasing_by
  omega

/-- C1, counterexample.  With the default ceiling `max_retries = 5` and a
collaborator whose responses always fail validation, the loop makes 6
inference attempts (the initial attempt plus 5 retries), not 5 as the
claim states. -/
theorem weeklyRetry_attempts_counterexample :
    (analyzeWeekWithRetries (fun _ => "") 5).attempts = 6
    ∧ ¬ (analyzeWeekWithRetries (fun _ => "") 5).attempts = 5 := by
  have hinv : ∀ n : Nat, (validate_metrics "").is_valid = false := by
    intro n
    decide
  have h := weeklyRetryLoop_always_invalid (fun _ => "") 5 hinv 0 0 (by omega)
  unfold analyzeWeekWithRetries
  rw [h]
  exact ⟨rfl, by decide⟩

/-- C1, amended.  Given responses the Validator always reports invalid, the
retry controller of `analyze_conversation_weekly` terminates after exactly
`max_retries + 1` attempts (the initial attempt plus `max_retries` retries;
7 calls never happen), and the chunk's analysis is kept flagged invalid
with a non-empty validation error list rather than being retried
indefinitely. -/
theorem weeklyRetry_bounded (resp : Nat → String) (max_retries : Nat)
    (hinv : ∀ n, (validate_metrics (resp n)).is_valid = false) :
    (analyzeWeekWithRetries resp max_retries).attempts = max_retries + 1
    ∧ (analyzeWeekWithRetries resp max_retries).final_is_valid = false
    ∧ (analyzeWeekWithRetries resp max_retries).final_errors ≠ [] := by
  have h := weeklyRetryLoop_always_invalid resp max_retries hinv 0 0 (by omega)
  unfold analyzeWeekWithRetries
  rw [h]
  refine ⟨by simp, rfl, ?_⟩
  intro hempty
  have hval := (validate_metrics_valid_iff_no_errors
    (resp (0 + (max_retries - 0)))).mpr hempty
  rw [hinv] at hval
  exact Bool.false_ne_true hval

theorem weeklyRetry_bounded_witness :
    (analyzeWeekWithRetries (fun _ => "") 2).attempts = 2 + 1
    ∧ (analyzeWeekWithRetries (fun _ => "") 2).final_is_valid = false
    ∧ (analyzeWeekWithRetries (fun _ => "") 2).final_errors ≠ [] := by
  have hinv : ∀ n : Nat, (validate_metrics "").is_valid = false := by
    intro n
    decide
  exact weeklyRetry_bounded (fun _ => "") 2 hinv

/-! Model of `CumulativeSummaryManager` in `src/stage2_llm_analyzer.py`
(lines 17-132).  A chunk summary is a JSON-like dict; the fields the
compression code reads are modelled explicitly, with `Option` marking key
presence. -/

/-- One per-dimension entry of a speaker dict; the code only reads its
trend key (`Option` models its absence). -/
structure DimData where
  trend : Option String
deriving DecidableEq, Repr

/-- A per-speaker dict, keyed by dimension name (toxicity, sentiment,
sarcasm, ...). -/
structure SpeakerData where
  dims : List (String × DimData)
deriving DecidableEq, Repr

/-- The summary dict of one chunk: its cumulative narrative and the two
speaker dicts, each possibly absent. -/
structure SummaryData where
  cumulative_summary : Option String
  speakerYou : Option SpeakerData
  speakerThem : Option SpeakerData
deriving DecidableEq, Repr

/-- An entry of `chunk_summaries`: a chunk id with its summary dict. -/
structure ChunkSummary where
  chunk_id : Nat
  summary : SummaryData
deriving DecidableEq, Repr

/-- Python newline join of a parts list. -/
def joinLines : List String → String
  | [] => ""
  | [s] => s
  | s :: rest => s ++ "\n" ++ joinLines rest

theorem joinLines_single (s : String) : joinLines [s] = s := rfl

theorem joinLines_cons_cons (s q : String) (qs : List String) :
    joinLines (s :: q :: qs) = s ++ "\n" ++ joinLines (q :: qs) := rfl

/-- Python `str.capitalize()`: first character uppercased, the rest
lowercased. -/
def pyCapitalize (s : String) : String :=
  match s.data with
  | [] => ""
  | c :: rest => String.mk (upperChar c :: rest.map lowerChar)

/-- The fixed "no prior context" marker returned for the first chunk
(lines 40 and 46). -/
def noPreviousMsg : String :=
  "This is the first chunk of the conversation. No previous analysis available."

/-- The header plus per-chunk lines built by `_detailed_summary`
(lines 59-71): for every prior chunk, a chunk separator line and, when
present, its cumulative narrative. -/
def detailedSummary (summaries : List ChunkSummary) : String :=
  joinLines ("PREVIOUS ANALYSIS:\n" ::
    (summaries.map (fun s =>
      let cid := s.chunk_id
      s!"\n--- Chunk {cid} ---" ::
        (match s.summary.cumulative_summary with
         | some c => [c]
         | none => []))).flatten)

/-- One "  - Dimension: trend" line of the You block, for a dimension
whose trend is present and differs from stable. -/
def trendLine (dimension trend : String) : String :=
  let capDim := pyCapitalize dimension
  s!"  - {capDim}: {trend}"

/-- The `parts` list built by `_medium_compression_summary` (lines 73-94):
the header, then — from the latest prior summary — the cumulative
narrative (if the key is present) and, when the You key is present, the
"You - Key patterns" block listing each of toxicity, sentiment, sarcasm
whose trend is present and differs from stable.  No Them block is built. -/
def mediumParts (summaries : List ChunkSummary) : List String :=
  "PREVIOUS ANALYSIS SUMMARY:\n" ::
    (match summaries.getLast? with
     | none => []
     | some lastS =>
       (match lastS.summary.cumulative_summary with
        | some c =>
          let cid := lastS.chunk_id
          [s!"Overall assessment (through Chunk {cid}):", c]
        | none => []) ++
       (match lastS.summary.speakerYou with
        | some you_data =>
          "\nYou - Key patterns:" ::
            (["toxicity", "sentiment", "sarcasm"].filterMap (fun dimension =>
              match you_data.dims.lookup dimension with
              | some dd =>
                match dd.trend with
                | some trend =>
                  if trend ≠ "stable" then some (trendLine dimension trend)
                  else none
                | none => none
              | none => none))
        | none => []))

/-- `_medium_compression_summary` (lines 73-94): the parts joined by
newlines. -/
def mediumCompressionSummary (summaries : List ChunkSummary) : String :=
  joinLines (mediumParts summaries)

/-- Python truthiness of a possibly absent string value: present and
non-empty. -/
def truthyStr : Option String → Bool
  | some c => c ≠ ""
  | none => false

/-- Python truthiness of a possibly absent speaker dict: present and a
non-empty dict. -/
def truthySpeaker : Option SpeakerData → Bool
  | some d => d.dims ≠ []
  | none => false

/-- The early-conversation lines of `_hierarchical_compression_summary`
(lines 106-110): when early chunks exist, a header and, when the last
early narrative is truthy, its first 200 characters followed by an
ellipsis. -/
def hierEarlyParts (early : List ChunkSummary) : List String :=
  match early.getLast? with
  | none => []
  | some lastEarly =>
    let cnt := early.length
    s!"\nEarly conversation (Chunks 1-{cnt}):" ::
      (if truthyStr lastEarly.summary.cumulative_summary then
        let digest := String.mk ((lastEarly.summary.cumulative_summary.getD "").data.take 200)
        [s!"  {digest}..."]
      else [])

/-- The middle-conversation lines (lines 112-124): a header whose first
number comes from the last early chunk (or 4), then — when the You dict of
the last middle chunk is truthy — the toxicity and sentiment trends that
differ from stable, comma-joined (note `.get` supplies the default
stable). -/
def hierMiddleParts (early middle : List ChunkSummary) : List String :=
  match middle.getLast? with
  | none => []
  | some lastMiddle =>
    let firstNum := match early.getLast? with
      | some e => e.chunk_id + 1
      | none => 4
    let lastNum := lastMiddle.chunk_id
    s!"\nMiddle conversation (Chunks {firstNum}-{lastNum}):" ::
      (if truthySpeaker lastMiddle.summary.speakerYou then
        match lastMiddle.summary.speakerYou with
        | some you_data =>
          let you_trends := ["toxicity", "sentiment"].filterMap (fun dim =>
            match you_data.dims.lookup dim with
            | some dd =>
              let trend := dd.trend.getD "stable"
              if trend ≠ "stable" then some (s!"{dim}: {trend}") else none
            | none => none)
          if you_trends ≠ [] then
            let joined := String.intercalate ", " you_trends
            [s!"  You: {joined}"]
          else []
        | none => []
      else [])

/-- The recent-conversation lines (lines 126-130): a header with the first
and last recent chunk ids and, when truthy, the last recent narrative in
full. -/
def hierRecentParts (recent : List ChunkSummary) : List String :=
  match recent.head?, recent.getLast? with
  | some firstRecent, some lastRecent =>
    let firstNum := firstRecent.chunk_id
    let lastNum := lastRecent.chunk_id
    s!"\nRecent analysis (Chunks {firstNum}-{lastNum}):" ::
      (if truthyStr lastRecent.summary.cumulative_summary then
        [lastRecent.summary.cumulative_summary.getD ""]
      else [])
  | _, _ => []

/-- `_hierarchical_compression_summary` (lines 96-132): history split into
early (chunk id at most 3), middle, and recent (the 3 chunk ids before
`current_chunk`) sections, each compressed as in the source. -/
def hierarchicalCompressionSummary (summaries : List ChunkSummary)
    (current_chunk : Nat) : String :=
  joinLines ("PREVIOUS ANALYSIS SUMMARY:\n" ::
    (hierEarlyParts (summaries.filter (fun s => s.chunk_id ≤ 3)) ++
     hierMiddleParts (summaries.filter (fun s => s.chunk_id ≤ 3))
       (summaries.filter (fun s => 3 < s.chunk_id ∧ s.chunk_id ≤ current_chunk - 3)) ++
     hierRecentParts (summaries.filter (fun s => current_chunk - 3 < s.chunk_id))))

/-- `CumulativeSummaryManager.get_compressed_summary(current_chunk_id)`
(lines 30-57), with `chunk_summaries` passed explicitly.  Chunk ids are
the naturals the pipeline uses (1-based); `current_chunk - 3` in the
hierarchical branch is Python int subtraction, which agrees with `Nat`
subtraction because that branch only runs for a current chunk id of at
least 7. -/
def get_compressed_summary (chunk_summaries : List ChunkSummary)
    (current_chunk_id : Nat) : String :=
  if current_chunk_id ≤ 1 then noPreviousMsg
  else
    if (chunk_summaries.filter (fun s => s.chunk_id < current_chunk_id)) = [] then
      noPreviousMsg
    else if current_chunk_id ≤ 3 then
      detailedSummary (chunk_summaries.filter (fun s => s.chunk_id < current_chunk_id))
    else if current_chunk_id ≤ 6 then
      mediumCompressionSummary
        (chunk_summaries.filter (fun s => s.chunk_id < current_chunk_id))
    else
      hierarchicalCompressionSummary
        (chunk_summaries.filter (fun s => s.chunk_id < current_chunk_id))
        current_chunk_id


theorem joinLines_header_ne (p : String) (ps : List String) (t : String)
    (hph : p.data.head? = some (Char.ofNat 80)) (hth : t.data.head? = some (Char.ofNat 84)) :
    joinLines (p :: ps) ≠ t := by
  intro he
  cases ps with
  | nil =>
    rw [joinLines_single] at he
    rw [he, hth] at hph
    exact absurd hph (by decide)
  | cons q qs =>
    rw [joinLines_cons_cons] at he
    have hd := congrArg String.data he
    rw [String.data_append, String.data_append] at hd
    have hh := congrArg List.head? hd
    rw [List.head?_append, List.head?_append, hph, hth] at hh
    have hh2 : some (Char.ofNat 80) = some (Char.ofNat 84) := hh
    exact absurd hh2 (by decide)

theorem detailedSummary_ne_marker (l : List ChunkSummary) :
    detailedSummary l ≠ noPreviousMsg := by
  unfold detailedSummary noPreviousMsg
  exact joinLines_header_ne _ _ _ rfl rfl

theorem mediumSummary_ne_marker (l : List ChunkSummary) :
    mediumCompressionSummary l ≠ noPreviousMsg := by
  unfold mediumCompressionSummary mediumParts noPreviousMsg
  exact joinLines_header_ne _ _ _ rfl rfl

theorem hierSummary_ne_marker (l : List ChunkSummary) (cur : Nat) :
    hierarchicalCompressionSummary l cur ≠ noPreviousMsg := by
  unfold hierarchicalCompressionSummary noPreviousMsg
  exact joinLines_header_ne _ _ _ rfl rfl

/-- C9.  `get_compressed_summary` returns the fixed "no prior context"
marker exactly when the current chunk id is at most 1 or no recorded
summary has a smaller chunk id; otherwise it returns one of the three
regime summaries, which always begin with a PREVIOUS-ANALYSIS header and
are never the marker. -/
theorem get_compressed_summary_marker_iff (h : List ChunkSummary) (cur : Nat) :
    (get_compressed_summary h cur = noPreviousMsg
      ↔ (cur ≤ 1 ∨ h.filter (fun s => s.chunk_id < cur) = []))
    ∧ (¬ (cur ≤ 1 ∨ h.filter (fun s => s.chunk_id < cur) = []) →
        (get_compressed_summary h cur
            = detailedSummary (h.filter (fun s => s.chunk_id < cur))
          ∨ get_compressed_summary h cur
            = mediumCompressionSummary (h.filter (fun s => s.chunk_id < cur))
          ∨ get_compressed_summary h cur
            = hierarchicalCompressionSummary
                (h.filter (fun s => s.chunk_id < cur)) cur)) := by
  unfold get_compressed_summary
  by_cases h1 : cur ≤ 1
  · rw [if_pos h1]
    constructor
    · constructor
      · intro _
        exact Or.inl h1
      · intro _
        rfl
    · intro hno
      exact absurd (Or.inl h1) hno
  · rw [if_neg h1]
    by_cases h2 : h.filter (fun s => s.chunk_id < cur) = []
    · rw [if_pos h2]
      constructor
      · constructor
        · intro _
          exact Or.inr h2
        · intro _
          rfl
      · intro hno
        exact absurd (Or.inr h2) hno
    · rw [if_neg h2]
      have hneq :
          (if cur ≤ 3 then
            detailedSummary (h.filter (fun s => s.chunk_id < cur))
          else if cur ≤ 6 then
            mediumCompressionSummary (h.filter (fun s => s.chunk_id < cur))
          else
            hierarchicalCompressionSummary (h.filter (fun s => s.chunk_id < cur)) cur)
          ≠ noPreviousMsg := by
        by_cases h3 : cur ≤ 3
        · rw [if_pos h3]
          exact detailedSummary_ne_marker _
        · rw [if_neg h3]
          by_cases h6 : cur ≤ 6
          · rw [if_pos h6]
            exact mediumSummary_ne_marker _
          · rw [if_neg h6]
            exact hierSummary_ne_marker _ _
      constructor
      · constructor
        · intro heq
          exact absurd heq hneq
        · intro hor
          rcases hor with hc | hc
          · exact absurd hc h1
          · exact absurd hc h2
      · intro _
        by_cases h3 : cur ≤ 3
        · rw [if_pos h3]
          exact Or.inl rfl
        · rw [if_neg h3]
          by_cases h6 : cur ≤ 6
          · rw [if_pos h6]
            exact Or.inr (Or.inl rfl)
          · rw [if_neg h6]
            exact Or.inr (Or.inr rfl)

/-- A single prior summary with a narrative, used to witness the marker
characterization on a non-marker input. -/
def oneStoryHist : List ChunkSummary :=
  [⟨1, ⟨some "story", none, none⟩⟩]

theorem get_compressed_summary_marker_iff_witness :
    get_compressed_summary oneStoryHist 2
        = detailedSummary (oneStoryHist.filter (fun s => s.chunk_id < 2))
      ∨ get_compressed_summary oneStoryHist 2
        = mediumCompressionSummary (oneStoryHist.filter (fun s => s.chunk_id < 2))
      ∨ get_compressed_summary oneStoryHist 2
        = hierarchicalCompressionSummary
            (oneStoryHist.filter (fun s => s.chunk_id < 2)) 2 :=
  (get_compressed_summary_marker_iff oneStoryHist 2).2 (by decide)

/-- A history whose only (hence most recent) prior summary records a
non-stable trend for speaker Them and none for You. -/
def themTrendHist : List ChunkSummary :=
  [⟨1, ⟨some "Early vibes", none,
    some ⟨[("toxicity", ⟨some "increasing"⟩)]⟩⟩⟩]

/-- C7, counterexample.  For `current_chunk_id = 5` (middle regime, with a
prior summary present) whose latest summary carries a Them toxicity trend
"increasing", the emitted summary contains only the cumulative narrative —
the non-stable Them dimension is not emitted (the code builds no Them
block), contradicting "for each of the two speakers". -/
theorem medium_regime_ignores_them_counterexample :
    get_compressed_summary themTrendHist 5
      = "PREVIOUS ANALYSIS SUMMARY:\n\nOverall assessment (through Chunk 1):\nEarly vibes"
    ∧ strContains (get_compressed_summary themTrendHist 5) "increasing" = false
    ∧ themTrendHist.filter (fun s => s.chunk_id < 5) ≠ []
    ∧ ((themTrendHist.filter (fun s => s.chunk_id < 5)).getLast?).map
        (fun cs => cs.summary.speakerThem)
      = some (some ⟨[("toxicity", ⟨some "increasing"⟩)]⟩) := by
  refine ⟨by decide, by decide, by decide, by decide⟩

/-- Drop the Them entry of one recorded summary. -/
def eraseThem (cs : ChunkSummary) : ChunkSummary :=
  ⟨cs.chunk_id, ⟨cs.summary.cumulative_summary, cs.summary.speakerYou, none⟩⟩

theorem mediumParts_eraseThem (l : List ChunkSummary) :
    mediumParts (l.map eraseThem) = mediumParts l := by
  unfold mediumParts
  rw [List.getLast?_map]
  cases l.getLast? with
  | none => rfl
  | some lastS => rfl

/-- C7, amended.  In the middle regime (current chunk id between 4 and 6,
with at least one prior summary) `get_compressed_summary` emits the medium
compression of the prior summaries: the most recent prior cumulative
narrative plus — for speaker You only — each of the three dimensions
toxicity, sentiment, sarcasm whose trend differs from "stable"; the Them
entries of the history never influence the output. -/
theorem medium_regime_you_dimensions (h : List ChunkSummary) (cur : Nat)
    (h4 : 4 ≤ cur) (h6 : cur ≤ 6)
    (hne : h.filter (fun s => s.chunk_id < cur) ≠ []) :
    get_compressed_summary h cur
        = mediumCompressionSummary (h.filter (fun s => s.chunk_id < cur))
    ∧ (∀ lastS, (h.filter (fun s => s.chunk_id < cur)).getLast? = some lastS →
        (∀ c, lastS.summary.cumulative_summary = some c →
          c ∈ mediumParts (h.filter (fun s => s.chunk_id < cur)))
        ∧ (∀ yd dim dd t, lastS.summary.speakerYou = some yd →
            dim ∈ (["toxicity", "sentiment", "sarcasm"] : List String) →
            yd.dims.lookup dim = some dd → dd.trend = some t → t ≠ "stable" →
            trendLine dim t ∈ mediumParts (h.filter (fun s => s.chunk_id < cur))))
    ∧ get_compressed_summary (h.map eraseThem) cur = get_compressed_summary h cur := by
  have h1 : ¬ cur ≤ 1 := by omega
  have h3 : ¬ cur ≤ 3 := by omega
  have hmed : get_compressed_summary h cur
      = mediumCompressionSummary (h.filter (fun s => s.chunk_id < cur)) := by
    unfold get_compressed_summary
    rw [if_neg h1, if_neg hne, if_neg h3, if_pos h6]
  refine ⟨hmed, ?_, ?_⟩
  · intro lastS hlast
    constructor
    · intro c hc
      unfold mediumParts
      rw [hlast]
      simp only [hc]
      simp
    · intro yd dim dd t hyd hdim hlook htrend hst
      unfold mediumParts
      rw [hlast]
      simp only [hyd]
      refine List.mem_cons_of_mem _ (List.mem_append.mpr (Or.inr ?_))
      refine List.mem_cons_of_mem _ ?_
      refine List.mem_filterMap.mpr ⟨dim, hdim, ?_⟩
      simp only [hlook, htrend]
      simp [hst]
  · have hfilt : (h.map eraseThem).filter (fun s => s.chunk_id < cur)
        = (h.filter (fun s => s.chunk_id < cur)).map eraseThem := by
      rw [List.filter_map]
      rfl
    have hne2 : (h.map eraseThem).filter (fun s => s.chunk_id < cur) ≠ [] := by
      rw [hfilt]
      intro hnil
      exact hne (List.map_eq_nil_iff.mp hnil)
    have hmed2 : get_compressed_summary (h.map eraseThem) cur
        = mediumCompressionSummary
            ((h.map eraseThem).filter (fun s => s.chunk_id < cur)) := by
      unfold get_compressed_summary
      rw [if_neg h1, if_neg hne2, if_neg h3, if_pos h6]
    rw [hmed2, hmed, hfilt]
    unfold mediumCompressionSummary
    rw [mediumParts_eraseThem]

/-- A history whose latest summary has a You toxicity trend "increasing". -/
def youTrendHist : List ChunkSummary :=
  [⟨1, ⟨some "Early vibes",
    some ⟨[("toxicity", ⟨some "increasing"⟩)]⟩, none⟩⟩]

theorem medium_regime_you_dimensions_witness :
    get_compressed_summary youTrendHist 4
      = mediumCompressionSummary (youTrendHist.filter (fun s => s.chunk_id < 4)) :=
  (medium_regime_you_dimensions youTrendHist 4 (by decide) (by decide) (by decide)).1

/-! Model of the incremental checkpoint write of
`analyze_conversation_weekly` (`src/weekly_metrics_analyzer.py` lines
599-622).  A file system maps paths to file contents (`none` = missing
file).  Opening a file in write mode truncates it immediately; the
serialized JSON is then written and the file closed; a crash can leave the
system in any of the listed intermediate states. -/

def FileSystem : Type := String → Option String

/-- Overwrite one path. -/
def fsWrite (fs : FileSystem) (path contents : String) : FileSystem :=
  fun p => if p = path then some contents else fs p

/-- Observable file-system states of the source checkpoint write —
`with open(incremental_save_path, ...)` in write mode followed by
`json.dump(incremental_data, f)` — in order: before the call, after the
truncating open, after the dump completes.  The write happens in place at
the checkpoint path itself; no temporary file or rename is involved. -/
def incrementalSaveStates (fs : FileSystem) (path data : String) : List FileSystem :=
  [fs, fsWrite fs path "", fsWrite fs path data]

/-- Modelled from the spec: "Checkpoint writes are atomic (write-then-rename
or equivalent)".  The serialized data is written to a separate temporary
path and then renamed over the checkpoint path in one step.  This procedure
is missing from the source, which writes in place; it is stated here only
to compare crash behaviour. -/
def atomicSaveStates (fs : FileSystem) (path tmp data : String) : List FileSystem :=
  [fs, fsWrite fs tmp data, fsWrite (fsWrite fs tmp data) path data]

/-- A file system holding one good checkpoint. -/
def fsGood : FileSystem :=
  fun p => if p = "checkpoint.json" then some "good" else none

/-- C5, counterexample.  In the source checkpoint write there is an
observable intermediate state — after the truncating open, before the dump
finishes — in which the checkpoint file holds neither the previous good
checkpoint nor the new data: a crash there leaves the previously persisted
checkpoint destroyed, so the write is not atomic. -/
theorem checkpoint_write_not_atomic_counterexample :
    ∃ st ∈ incrementalSaveStates fsGood "checkpoint.json" "new",
      st "checkpoint.json" ≠ fsGood "checkpoint.json"
        ∧ st "checkpoint.json" ≠ some "new" := by
  refine ⟨fsWrite fsGood "checkpoint.json" "",
    List.mem_cons_of_mem _ (List.mem_cons_self _ _), ?_, ?_⟩
  · show some "" ≠ fsGood "checkpoint.json"
    decide
  · show some "" ≠ some "new"
    decide

/-- C5, amended.  After each week the checkpoint is rewritten in place:
the file is truncated before the new contents are written, so a crash
between the truncating open and the completed write leaves the checkpoint
file empty — neither the previous good checkpoint nor the new one; only
the final state holds the new checkpoint.  The spec-modelled
write-then-rename sequence, by contrast, leaves the checkpoint path
holding either the old or the new contents in every state. -/
theorem checkpoint_write_in_place (fs : FileSystem) (path data : String)
    (hold : fs path ≠ some "") (hnew : data ≠ "") :
    (∃ st ∈ incrementalSaveStates fs path data,
      st path ≠ fs path ∧ st path ≠ some data)
    ∧ (incrementalSaveStates fs path data).getLast? = some (fsWrite fs path data)
    ∧ fsWrite fs path data path = some data
    ∧ (∀ tmp, tmp ≠ path →
        ∀ st ∈ atomicSaveStates fs path tmp data,
          st path = fs path ∨ st path = some data) := by
  refine ⟨?_, rfl, ?_, ?_⟩
  · refine ⟨fsWrite fs path "",
      List.mem_cons_of_mem _ (List.mem_cons_self _ _), ?_, ?_⟩
    · show (if path = path then some "" else fs path) ≠ fs path
      rw [if_pos rfl]
      exact fun he => hold he.symm
    · show (if path = path then some "" else fs path) ≠ some data
      rw [if_pos rfl]
      intro he
      exact hnew (Option.some_injective _ he).symm
  · show (if path = path then some data else fs path) = some data
    rw [if_pos rfl]
  · intro tmp htp st hst
    rcases List.mem_cons.mp hst with rfl | hst
    · exact Or.inl rfl
    rcases List.mem_cons.mp hst with rfl | hst
    · refine Or.inl ?_
      show (if path = tmp then some data else fs path) = fs path
      rw [if_neg (fun he => htp he.symm)]
    rcases List.mem_cons.mp hst with rfl | hst
    · refine Or.inr ?_
      show (if path = path then some data else _) = some data
      rw [if_pos rfl]
    · simp at hst

theorem checkpoint_write_in_place_witness :
    ∃ st ∈ incrementalSaveStates fsGood "checkpoint.json" "fresh",
      st "checkpoint.json" ≠ fsGood "checkpoint.json"
        ∧ st "checkpoint.json" ≠ some "fresh" :=
  (checkpoint_write_in_place fsGood "checkpoint.json" "fresh" (by decide)
    (by decide)).1

/-! Model of `analyze_conversation`, `_batch_analyze_dialogues` and
`_aggregate_results` of `src/llm_analyzer.py` (lines 244-645).  The five
transformer models are external collaborators, abstracted as a bundle of
label/score functions of the dialogue text; their numeric scores are
modelled by `ℚ`. -/

/-- Characters removed from the head of a message text by the first
cleanup in `analyze_conversation` (line 282). -/
def isJunkChar (c : Char) : Bool :=
  c = '&' ∨ c = '*' ∨ c = '@' ∨ c = ',' ∨ c = ';' ∨ c = '+' ∨ c = ')' ∨
    c = ']' ∨ c = '[' ∨ pyIsDigit c

/-- The anchored substitution removing a leading junk-character run and
the whitespace after it (line 282); no-op when the text does not start
with a junk character. -/
def cleanLeading (cs : List Char) : List Char :=
  let run := cs.takeWhile isJunkChar
  if run = [] then cs else (cs.drop run.length).dropWhile pyIsSpace

/-- ASCII letter. -/
def isAsciiLetter (c : Char) : Bool := ('a' ≤ c ∧ c ≤ 'z') ∨ ('A' ≤ c ∧ c ≤ 'Z')

/-- ASCII capital. -/
def isUpperLetter (c : Char) : Bool := 'A' ≤ c ∧ c ≤ 'Z'

/-- The anchored substitution removing a single leading letter (plus
following whitespace) when a capital follows (line 283).  The greedy
whitespace run is forced: any shorter run would stop at a whitespace
character, never a capital. -/
def cleanSingleLetter (cs : List Char) : List Char :=
  match cs with
  | [] => []
  | c :: rest =>
    if isAsciiLetter c then
      let w := (rest.takeWhile pyIsSpace).length
      match (rest.drop w).head? with
      | some d => if isUpperLetter d then rest.drop w else c :: rest
      | none => c :: rest
    else c :: rest

/-- The substitution removing a trailing semicolon/comma run and the
whitespace before it (line 285); the end anchor may look past one final
newline, which is kept. -/
def cleanTrailing (cs : List Char) : List Char :=
  let nl : List Char :=
    match cs.getLast? with
    | some c => if c = '\n' then ['\n'] else []
    | none => []
  let body := if nl = [] then cs else cs.dropLast
  let r := body.reverse
  let punct := r.takeWhile (fun c => c = ';' ∨ c = ',')
  if punct = [] then cs
  else ((r.drop punct.length).dropWhile pyIsSpace).reverse ++ nl

/-- The full message-text cleanup of `analyze_conversation`
(lines 279-286): the three substitutions in source order followed by
`strip()`. -/
def cleanText (t : String) : String :=
  String.mk (pyStrip (cleanTrailing (cleanSingleLetter (cleanLeading t.data))))

/-- Month abbreviations of `strftime` in the C locale. -/
def monthAbbrev : Nat → String
  | 1 => "Jan"
  | 2 => "Feb"
  | 3 => "Mar"
  | 4 => "Apr"
  | 5 => "May"
  | 6 => "Jun"
  | 7 => "Jul"
  | 8 => "Aug"
  | 9 => "Sep"
  | 10 => "Oct"
  | 11 => "Nov"
  | 12 => "Dec"
  | _ => ""

/-- Gregorian leap year, as the datetime library computes it. -/
def isLeapYear (y : Nat) : Bool := y % 4 = 0 ∧ (y % 100 ≠ 0 ∨ y % 400 = 0)

/-- Days in a month, as the datetime library validates them. -/
def daysInMonth (y m : Nat) : Nat :=
  if m = 2 then (if isLeapYear y then 29 else 28)
  else if m = 4 ∨ m = 6 ∨ m = 9 ∨ m = 11 then 30
  else 31

/-- One month or day field of `strptime`: two digits are preferred when
their value fits `maxv`, otherwise a single non-zero digit is taken. -/
def parseMD (cs : List Char) (maxv : Nat) : Option (Nat × List Char) :=
  match cs with
  | a :: b :: rest =>
    if pyIsDigit a ∧ pyIsDigit b ∧ 1 ≤ digitsToNat [a, b] ∧ digitsToNat [a, b] ≤ maxv then
      some (digitsToNat [a, b], rest)
    else if pyIsDigit a ∧ a ≠ '0' then
      some (digitsToNat [a], b :: rest)
    else none
  | [a] => if pyIsDigit a ∧ a ≠ '0' then some (digitsToNat [a], []) else none
  | [] => none

/-- Model of `datetime.strptime(date_str, ...)` for the year-month-day
format used at line 299 (external library): exactly four year digits, a
month and a day joined by dashes and covering the whole string, validated
against the calendar. -/
def pyStrptimeYMD (s : String) : Option (Nat × Nat × Nat) :=
  match s.data with
  | y1 :: y2 :: y3 :: y4 :: '-' :: rest =>
    if pyIsDigit y1 ∧ pyIsDigit y2 ∧ pyIsDigit y3 ∧ pyIsDigit y4 then
      let y := digitsToNat [y1, y2, y3, y4]
      match parseMD rest 12 with
      | some (m, '-' :: rest2) =>
        match parseMD rest2 31 with
        | some (d, []) =>
          if 1 ≤ y ∧ d ≤ daysInMonth y m then some (y, m, d) else none
        | _ => none
      | _ => none
    else none
  | _ => none

/-- Zero-padded two-digit day of `strftime`. -/
def pad2 (n : Nat) : String := if n < 10 then s!"0{n}" else s!"{n}"

/-- The hour-minute part: first two colon fields of the time string
(line 303). -/
def timeHM (time_str : String) : String :=
  String.intercalate ":" ((time_str.splitOn ":").take 2)

/-- The timestamp prefix built in `analyze_conversation` (lines 289-307):
split the formatted date on spaces, parse the date part, and format
month-abbreviation, day, hour-minute and the am/pm marker in brackets;
any failure (caught by the bare except in the source) yields the empty
prefix. -/
def formatTimestamp (date_formatted : String) : String :=
  if date_formatted ≠ "" then
    match date_formatted.splitOn " " with
    | date_str :: time_str :: ampm :: _ =>
      match pyStrptimeYMD date_str with
      | some (_, m, d) =>
        "[" ++ monthAbbrev m ++ " " ++ pad2 d ++ " " ++ timeHM time_str ++ " "
          ++ ampm ++ "] "
      | none => ""
    | _ => ""
  else ""

/-- One line of the dialogue text (line 309): timestamp prefix, speaker
label by `is_from_me`, and the cleaned message text. -/
def dialogueLine (msg : Msg) : String :=
  formatTimestamp msg.date_formatted ++ (if msg.is_from_me then "You" else "Them")
    ++ ": " ++ cleanText msg.text

/-- One entry of `chunk_data` (lines 316-326). -/
structure ChunkDatum where
  dialogue : String
  has_your_msgs : Bool
  has_their_msgs : Bool
  your_msg_count : Nat
  their_msg_count : Nat
deriving DecidableEq, Repr

/-- The `chunk_data` entry of one chunk (lines 268-326): messages with
text become dialogue lines (joined and truncated to 1200 characters) and
are counted per speaker; a chunk without any text yields no entry. -/
def chunkDatum? (chunk : List Msg) : Option ChunkDatum :=
  let textMsgs := chunk.filter hasText
  if textMsgs = [] then none
  else
    let yourCount := (textMsgs.filter (fun m => m.is_from_me)).length
    let theirCount := (textMsgs.filter (fun m => ! m.is_from_me)).length
    some
      { dialogue := String.mk ((joinLines (textMsgs.map dialogueLine)).data.take 1200),
        has_your_msgs := yourCount > 0,
        has_their_msgs := theirCount > 0,
        your_msg_count := yourCount,
        their_msg_count := theirCount }

/-- The five external classification models, each mapping a dialogue text
to a label and a confidence (the bert model returns its five Big-5
scores). -/
structure Models where
  personality : String → String × ℚ
  bert : String → ℚ × ℚ × ℚ × ℚ × ℚ
  toxicity : String → String × ℚ
  sarcasm : String → String × ℚ
  sentiment : String → String × ℚ

/-- One toxicity entry (`is_toxic` with its confidence). -/
structure ToxEntry where
  is_toxic : Bool
  confidence : ℚ
deriving DecidableEq, Repr

/-- One result record built by `_batch_analyze_dialogues` (lines 408-432).
The toxicity dict holds only the martin_ha entry: the toxicchat model is
commented out in the source. -/
structure BatchItem where
  personality_trait : String
  personality_confidence : ℚ
  personality_bert : List (String × ℚ)
  toxicity : List (String × ToxEntry)
  is_sarcastic : Bool
  sarcasm_confidence : ℚ
  sentiment : String
  sentiment_confidence : ℚ
deriving DecidableEq, Repr

/-- The result record of one dialogue chunk (lines 408-432). -/
def analyzeOneDialogue (models : Models) (t : String) : BatchItem :=
  { personality_trait := (models.personality t).1,
    personality_confidence := (models.personality t).2,
    personality_bert :=
      [("Extroversion", (models.bert t).1),
       ("Neuroticism", (models.bert t).2.1),
       ("Agreeableness", (models.bert t).2.2.1),
       ("Conscientiousness", (models.bert t).2.2.2.1),
       ("Openness", (models.bert t).2.2.2.2)],
    toxicity := [("martin_ha",
      ⟨(models.toxicity t).1 = "toxic", (models.toxicity t).2⟩)],
    is_sarcastic := pyLower (models.sarcasm t).1 = "sarcasm",
    sarcasm_confidence := (models.sarcasm t).2,
    sentiment := (models.sentiment t).1,
    sentiment_confidence := (models.sentiment t).2 }

/-- The slicing loop of `_batch_analyze_dialogues`: texts are processed in
slices of `batch_size` and the per-slice results concatenated.  (With a
`batch_size` of 0 the Python `range` call raises; the model returns `[]`
there and the theorems assume a positive batch size.) -/
def batchLoop (models : Models) (batch_size : Nat) (texts : List String) :
    List BatchItem :=
  if h1 : texts = [] then []
  else if h2 : batch_size = 0 then []
  else
    (texts.take batch_size).map (analyzeOneDialogue models)
      ++ batchLoop models batch_size (texts.drop batch_size)
termination_by texts.length
decreasing_by
  have hp : 0 < texts.length := List.length_pos.mpr h1
  simp [List.length_drop]
  omega

/-- `_batch_analyze_dialogues(texts, batch_size, ...)` (lines 365-440). -/
def batchAnalyzeDialogues (models : Models) (texts : List String)
    (batch_size : Nat) : List BatchItem :=
  if texts = [] then [] else batchLoop models batch_size texts

/-- Python dict read `d[k]`: a missing key raises `KeyError`. -/
def dictGet {α : Type} (d : List (String × α)) (k : String) : Except String α :=
  match d.lookup k with
  | some v => Except.ok v
  | none => Except.error (s!"KeyError: {k}")

/-- Python dict write `d[k] = v` for a key already present. -/
def setKey {α : Type} (d : List (String × α)) (k : String) (v : α) :
    List (String × α) :=
  d.map (fun p => if p.1 = k then (k, v) else p)

/-- Python `d[k] = d.get(k, 0) + 1`: increment with insertion of missing
keys at the end (dicts preserve insertion order). -/
def countUp (d : List (String × Nat)) (k : String) : List (String × Nat) :=
  match d.lookup k with
  | some n => setKey d k (n + 1)
  | none => d ++ [(k, 1)]

/-- The initial `bert_big5_sums` dict (line 583). -/
def bigFiveZero : List (String × ℚ) :=
  [("Extroversion", 0), ("Neuroticism", 0), ("Agreeableness", 0),
    ("Conscientiousness", 0), ("Openness", 0)]

/-- `bert_big5_sums[trait] += score` (line 586): reading a trait that is
not a key of the sums dict raises `KeyError`. -/
def bertAdd (sums : List (String × ℚ)) (trait : String) (score : ℚ) :
    Except String (List (String × ℚ)) :=
  match sums.lookup trait with
  | some v => Except.ok (setKey sums trait (v + score))
  | none => Except.error (s!"KeyError: {trait}")

/-- `sum(1 for r in results if r[toxicity][key][is_toxic])` (lines
590-591): the generator raises `KeyError` at the first result whose
toxicity dict lacks `key`. -/
def countToxic (key : String) (results : List BatchItem) : Except String Nat :=
  results.foldlM (fun acc r =>
    (dictGet r.toxicity key).map (fun e =>
      acc + (if e.is_toxic then 1 else 0))) 0

/-- Python `max(items, key=...)`: the first maximal element. -/
def argmaxFirst (l : List (String × Nat)) : Option String :=
  (l.foldl (fun acc p =>
    match acc with
    | none => some p
    | some q => if p.2 > q.2 then some p else some q) none).map (fun p => p.1)

/-- The aggregated statistics dict built by `_aggregate_results`
(lines 612-645). -/
structure Agg where
  primary_trait : Option String
  trait_distribution : List (String × Nat)
  bert_big5_avg : List (String × ℚ)
  martin_ha_rate : ℚ
  martin_ha_toxic : Nat
  toxicchat_rate : ℚ
  toxicchat_toxic : Nat
  average_toxicity_rate : ℚ
  sarcasm_rate : ℚ
  sarcastic_messages : Nat
  sentiment_distribution : List (String × Nat)
  positive_rate : ℚ
  negative_rate : ℚ
  neutral_rate : ℚ
  total_analyzed : Nat
deriving DecidableEq, Repr

/-- Return value of `_aggregate_results`: the empty dict for an empty
result list, the statistics dict otherwise. -/
inductive AggResult
  | empty
  | stats (a : Agg)
deriving DecidableEq, Repr

/-- `_aggregate_results(results)` (lines 564-645), in source order:
personality counts, bert Big-5 sums (line 586 can raise), the martin_ha
toxic count (line 590), the toxicchat toxic count (line 591 — the raising
read the claim is about), then the derived rates and counts. -/
def aggregateResults (results : List BatchItem) : Except String AggResult :=
  if results = [] then Except.ok AggResult.empty
  else do
    let personality_counts :=
      results.foldl (fun d r => countUp d r.personality_trait) []
    let bert_sums ← results.foldlM (fun sums r =>
      r.personality_bert.foldlM (fun s p => bertAdd s p.1 p.2) sums) bigFiveZero
    let n := results.length
    let bert_avg :=
      if results ≠ [] then bert_sums.map (fun p => (p.1, p.2 / (n : ℚ))) else []
    let martin_ha_toxic_count ← countToxic "martin_ha" results
    let toxicchat_toxic_count ← countToxic "toxicchat" results
    let martin_ha_rate :=
      if results ≠ [] then (martin_ha_toxic_count : ℚ) / (n : ℚ) else 0
    let toxicchat_rate :=
      if results ≠ [] then (toxicchat_toxic_count : ℚ) / (n : ℚ) else 0
    let sarcasm_count := (results.filter (fun r => r.is_sarcastic)).length
    let sarcasm_rate := if results ≠ [] then (sarcasm_count : ℚ) / (n : ℚ) else 0
    let sentiment_counts := results.foldl (fun d r => countUp d r.sentiment)
      [("POS", 0), ("NEG", 0), ("NEU", 0)]
    let pos ← dictGet sentiment_counts "POS"
    let neg ← dictGet sentiment_counts "NEG"
    let neu ← dictGet sentiment_counts "NEU"
    Except.ok (AggResult.stats
      { primary_trait := argmaxFirst personality_counts,
        trait_distribution := personality_counts,
        bert_big5_avg := bert_avg,
        martin_ha_rate := martin_ha_rate,
        martin_ha_toxic := martin_ha_toxic_count,
        toxicchat_rate := toxicchat_rate,
        toxicchat_toxic := toxicchat_toxic_count,
        average_toxicity_rate := (martin_ha_rate + toxicchat_rate) / 2,
        sarcasm_rate := sarcasm_rate,
        sarcastic_messages := sarcasm_count,
        sentiment_distribution := sentiment_counts,
        positive_rate := if results ≠ [] then (pos : ℚ) / (n : ℚ) else 0,
        negative_rate := if results ≠ [] then (neg : ℚ) / (n : ℚ) else 0,
        neutral_rate := if results ≠ [] then (neu : ℚ) / (n : ℚ) else 0,
        total_analyzed := n })

/-- The dict returned by `analyze_conversation` (lines 352-363), metadata
inlined. -/
structure AnalysisResult where
  your_analysis : AggResult
  their_analysis : AggResult
  total_messages : Nat
  your_messages : Nat
  their_messages : Nat
  chunks_analyzed : Nat
  chunk_size : Nat
  overlap : Nat
deriving Repr

/-- The `chunk_data` local of `analyze_conversation` (lines 266-326). -/
def chunkData (messages : List Msg) (chunk_size overlap : Nat) : List ChunkDatum :=
  (createChunks messages chunk_size overlap).filterMap chunkDatum?

/-- The `all_results` local of `analyze_conversation` (line 335). -/
def allResults (models : Models) (messages : List Msg)
    (chunk_size overlap batch_size : Nat) : List BatchItem :=
  batchAnalyzeDialogues models
    ((chunkData messages chunk_size overlap).map (fun c => c.dialogue)) batch_size

/-- The `your_results` local of `analyze_conversation` (lines 338-345):
the batch result of every chunk that contains messages from You. -/
def yourResults (models : Models) (messages : List Msg)
    (chunk_size overlap batch_size : Nat) : List BatchItem :=
  ((chunkData messages chunk_size overlap).zip
      (allResults models messages chunk_size overlap batch_size)).filterMap
    (fun p => if p.1.has_your_msgs then some p.2 else none)

/-- The `their_results` local of `analyze_conversation` (lines 338-345). -/
def theirResults (models : Models) (messages : List Msg)
    (chunk_size overlap batch_size : Nat) : List BatchItem :=
  ((chunkData messages chunk_size overlap).zip
      (allResults models messages chunk_size overlap batch_size)).filterMap
    (fun p => if p.1.has_their_msgs then some p.2 else none)

/-- `LLMAnalyzer.analyze_conversation(messages, chunk_size, overlap,
batch_size, ...)` (lines 244-363): chunk the conversation, build the
per-chunk dialogue data, batch-analyze the dialogue texts, split the
results by which speakers appear in each chunk, and aggregate both sides
(either aggregation can raise); the function locals are the named
definitions above. -/
def analyze_conversation (models : Models) (messages : List Msg)
    (chunk_size overlap batch_size : Nat) : Except String AnalysisResult := do
  let your_analysis ←
    aggregateResults (yourResults models messages chunk_size overlap batch_size)
  let their_analysis ←
    aggregateResults (theirResults models messages chunk_size overlap batch_size)
  Except.ok
    { your_analysis := your_analysis,
      their_analysis := their_analysis,
      total_messages := messages.length,
      your_messages := (messages.filter (fun m => m.is_from_me)).length,
      their_messages := (messages.filter (fun m => ! m.is_from_me)).length,
      chunks_analyzed := (createChunks messages chunk_size overlap).length,
      chunk_size := chunk_size,
      overlap := overlap }

theorem batchLoop_eq_map (models : Models) (bs : Nat) (hbs : 1 ≤ bs) :
    ∀ texts, batchLoop models bs texts = texts.map (analyzeOneDialogue models) := by
  intro texts
  by_cases h1 : texts = []
  · subst h1
    rw [batchLoop]
    simp
  · rw [batchLoop]
    rw [dif_neg h1]
    have h2 : ¬ bs = 0 := by omega
    rw [dif_neg h2]
    have hp : 0 < texts.length := List.length_pos.mpr h1
    have := batchLoop_eq_map models bs hbs (texts.drop bs)
    rw [this, ← List.map_append, List.take_append_drop]
termination_by texts => texts.length
decreasing_by
  simp [List.length_drop]
  omega

theorem batchAnalyze_eq_map (models : Models) (texts : List String) (bs : Nat)
    (hbs : 1 ≤ bs) :
    batchAnalyzeDialogues models texts bs = texts.map (analyzeOneDialogue models) := by
  unfold batchAnalyzeDialogues
  by_cases h : texts = []
  · subst h
    simp
  · rw [if_neg h]
    exact batchLoop_eq_map models bs hbs texts

theorem analyzeOne_toxicchat_none (models : Models) (t : String) :
    (analyzeOneDialogue models t).toxicity.lookup "toxicchat" = none := rfl

theorem analyzeOne_martin_isSome (models : Models) (t : String) :
    ((analyzeOneDialogue models t).toxicity.lookup "martin_ha").isSome = true := rfl

theorem analyzeOne_bert_keys (models : Models) (t : String) :
    ∀ p ∈ (analyzeOneDialogue models t).personality_bert,
      (bigFiveZero.lookup p.1).isSome = true := by
  intro p hp
  simp only [analyzeOneDialogue, List.mem_cons, List.not_mem_nil, or_false] at hp
  rcases hp with h | h | h | h | h
  · rw [h]
    rfl
  · rw [h]
    rfl
  · rw [h]
    rfl
  · rw [h]
    rfl
  · rw [h]
    rfl

theorem lookup_setKey_isSome {α : Type} (d : List (String × α)) (k0 k : String)
    (v : α) : ((setKey d k0 v).lookup k).isSome = (d.lookup k).isSome := by
  induction d with
  | nil => rfl
  | cons a d ih =>
    simp only [setKey, List.map_cons]
    by_cases ha : a.1 = k0
    · rw [if_pos ha]
      by_cases hk : k = a.1
      · subst hk
        rw [← ha]
        simp [List.lookup]
      · have hk2 : (k == a.1) = false := by
          simp [hk]
        have hk3 : (k == k0) = false := by
          rw [← ha]
          simp [hk]
        simp only [List.lookup, hk2, hk3]
        exact ih
    · rw [if_neg ha]
      by_cases hk : k = a.1
      · subst hk
        simp [List.lookup]
      · have hk2 : (k == a.1) = false := by
          simp [hk]
        simp only [List.lookup, hk2]
        exact ih

theorem bertAdd_ok (sums : List (String × ℚ)) (trait : String) (q : ℚ)
    (h : (sums.lookup trait).isSome = true) :
    ∃ sums2, bertAdd sums trait q = Except.ok sums2
      ∧ ∀ k, ((sums2.lookup k).isSome = (sums.lookup k).isSome) := by
  unfold bertAdd
  cases hl : sums.lookup trait with
  | none =>
    rw [hl] at h
    simp at h
  | some v =>
    exact ⟨setKey sums trait (v + q), rfl, fun k => lookup_setKey_isSome sums trait k _⟩

theorem bertFold_ok (entries : List (String × ℚ)) :
    ∀ sums, (∀ p ∈ entries, (sums.lookup p.1).isSome = true) →
      ∃ sums2, entries.foldlM (fun s p => bertAdd s p.1 p.2) sums = Except.ok sums2
        ∧ ∀ k, ((sums2.lookup k).isSome = (sums.lookup k).isSome) := by
  induction entries with
  | nil =>
    intro sums _
    exact ⟨sums, rfl, fun k => rfl⟩
  | cons p es ih =>
    intro sums hall
    obtain ⟨s1, hs1, hk1⟩ :=
      bertAdd_ok sums p.1 p.2 (hall p (List.mem_cons_self _ _))
    obtain ⟨s2, hs2, hk2⟩ := ih s1 (fun q hq => by
      rw [hk1]
      exact hall q (List.mem_cons_of_mem _ hq))
    refine ⟨s2, ?_, fun k => (hk2 k).trans (hk1 k)⟩
    rw [List.foldlM_cons, hs1]
    exact hs2

theorem resultsBertFold_ok (results : List BatchItem) :
    ∀ sums, (∀ k, ((sums.lookup k).isSome = (bigFiveZero.lookup k).isSome)) →
      (∀ r ∈ results, ∀ p ∈ r.personality_bert,
        (bigFiveZero.lookup p.1).isSome = true) →
      ∃ sums2, results.foldlM (fun sums r =>
          r.personality_bert.foldlM (fun s p => bertAdd s p.1 p.2) sums) sums
        = Except.ok sums2 := by
  induction results with
  | nil =>
    intro sums _ _
    exact ⟨sums, rfl⟩
  | cons r rs ih =>
    intro sums hk hall
    obtain ⟨s1, hs1, hk1⟩ := bertFold_ok r.personality_bert sums (fun p hp => by
      rw [hk]
      exact hall r (List.mem_cons_self _ _) p hp)
    obtain ⟨s2, hs2⟩ := ih s1 (fun k => (hk1 k).trans (hk k))
      (fun r2 hr2 => hall r2 (List.mem_cons_of_mem _ hr2))
    refine ⟨s2, ?_⟩
    rw [List.foldlM_cons, hs1]
    exact hs2

theorem countToxic_ok_aux (key : String) (results : List BatchItem) :
    ∀ acc, (∀ r ∈ results, (r.toxicity.lookup key).isSome = true) →
      ∃ n, results.foldlM (fun acc r =>
        (dictGet r.toxicity key).map (fun e =>
          acc + (if e.is_toxic then 1 else 0))) acc = Except.ok n := by
  induction results with
  | nil =>
    intro acc _
    exact ⟨acc, rfl⟩
  | cons r rs ih =>
    intro acc hall
    have hr := hall r (List.mem_cons_self _ _)
    cases hl : r.toxicity.lookup key with
    | none =>
      rw [hl] at hr
      simp at hr
    | some e =>
      obtain ⟨n, hn⟩ := ih (acc + (if e.is_toxic then 1 else 0))
        (fun r2 hr2 => hall r2 (List.mem_cons_of_mem _ hr2))
      refine ⟨n, ?_⟩
      rw [List.foldlM_cons]
      simp only [dictGet, hl, Except.map]
      exact hn

theorem countToxic_ok (key : String) (results : List BatchItem)
    (hall : ∀ r ∈ results, (r.toxicity.lookup key).isSome = true) :
    ∃ n, countToxic key results = Except.ok n :=
  countToxic_ok_aux key results 0 hall

theorem countToxic_error_first (key : String) (r : BatchItem)
    (rs : List BatchItem) (hr : r.toxicity.lookup key = none) :
    countToxic key (r :: rs) = Except.error (s!"KeyError: {key}") := by
  unfold countToxic
  rw [List.foldlM_cons]
  simp only [dictGet, hr, Except.map]
  rfl

theorem aggregate_batch_error (results : List BatchItem) (hne : results ≠ [])
    (hbert : ∀ r ∈ results, ∀ p ∈ r.personality_bert,
      (bigFiveZero.lookup p.1).isSome = true)
    (hmha : ∀ r ∈ results, (r.toxicity.lookup "martin_ha").isSome = true)
    (htc : ∀ r ∈ results, r.toxicity.lookup "toxicchat" = none) :
    aggregateResults results = Except.error "KeyError: toxicchat" := by
  obtain ⟨r, rs, rfl⟩ : ∃ r rs, results = r :: rs := by
    cases results with
    | nil => exact absurd rfl hne
    | cons r rs => exact ⟨r, rs, rfl⟩
  unfold aggregateResults
  rw [if_neg hne]
  obtain ⟨s2, hs2⟩ := resultsBertFold_ok (r :: rs) bigFiveZero (fun k => rfl) hbert
  obtain ⟨n1, hn1⟩ := countToxic_ok "martin_ha" (r :: rs) hmha
  have herr := countToxic_error_first "toxicchat" r rs
    (htc r (List.mem_cons_self _ _))
  rw [hs2, hn1, herr]
  rfl

theorem aggregate_error_of_missing (results : List BatchItem) (hne : results ≠ [])
    (htc : ∀ r ∈ results, r.toxicity.lookup "toxicchat" = none) :
    ∃ e, aggregateResults results = Except.error e := by
  obtain ⟨r, rs, rfl⟩ : ∃ r rs, results = r :: rs := by
    cases results with
    | nil => exact absurd rfl hne
    | cons r rs => exact ⟨r, rs, rfl⟩
  unfold aggregateResults
  rw [if_neg hne]
  cases hfold : (r :: rs).foldlM (fun sums r =>
      r.personality_bert.foldlM (fun s p => bertAdd s p.1 p.2) sums) bigFiveZero with
  | error e =>
    exact ⟨e, rfl⟩
  | ok s2 =>
    cases hm : countToxic "martin_ha" (r :: rs) with
    | error e =>
      exact ⟨e, rfl⟩
    | ok n1 =>
      have herr := countToxic_error_first "toxicchat" r rs
        (htc r (List.mem_cons_self _ _))
      rw [herr]
      exact ⟨"KeyError: toxicchat", rfl⟩

theorem createChunks_covers (messages : List Msg) (b o : Nat) :
    ∀ x ∈ messages, ∃ c ∈ createChunks messages b o, x ∈ c := by
  intro x hx
  have hre := createChunks_rebuild messages b o
  rw [← hre] at hx
  exact mem_rebuildChunks _ _ _ x hx

theorem createChunksFrom_sub (messages : List Msg) (b o : Nat) (i : Nat) :
    ∀ c ∈ createChunksFrom messages b o i, ∀ x ∈ c, x ∈ messages := by
  by_cases h : i < messages.length
  case neg =>
    rw [createChunksFrom_stop messages b o i h]
    intro c hc
    simp at hc
  case pos =>
    have hne : buildChunk b (messages.drop i) 0 0 ≠ [] :=
      buildChunk_ne_nil b (messages.drop i) 0 (drop_ne_nil_of_lt messages i h)
    rw [createChunksFrom_step messages b o i h hne]
    intro c hc x hx
    have ha : 1 ≤ max 1 ((buildChunk b (messages.drop i) 0 0).length
        - overlapMsgs o (buildChunk b (messages.drop i) 0 0).reverse 0 0) :=
      le_max_left _ _
    rcases List.mem_cons.mp hc with rfl | hc'
    · rw [buildChunk_take b (messages.drop i) 0 0] at hx
      exact List.mem_of_mem_drop (List.mem_of_mem_take hx)
    · exact createChunksFrom_sub messages b o _ c hc' x hx
termination_by messages.length - i
decreasing_by
  omega

theorem createChunks_sub (messages : List Msg) (b o : Nat) :
    ∀ c ∈ createChunks messages b o, ∀ x ∈ c, x ∈ messages := by
  unfold createChunks
  by_cases hm : messages = []
  · rw [if_pos hm]
    intro c hc
    simp at hc
  · rw [if_neg hm]
    exact createChunksFrom_sub messages b o 0

theorem mem_allResults_toxicchat (models : Models) (messages : List Msg)
    (cs ov bs : Nat) (hbs : 1 ≤ bs) (r : BatchItem)
    (hr : r ∈ allResults models messages cs ov bs) :
    r.toxicity.lookup "toxicchat" = none := by
  unfold allResults at hr
  rw [batchAnalyze_eq_map _ _ _ hbs] at hr
  obtain ⟨t, _, rfl⟩ := List.mem_map.mp hr
  exact analyzeOne_toxicchat_none models t

theorem mem_yourResults_allResults (models : Models) (messages : List Msg)
    (cs ov bs : Nat) (r : BatchItem)
    (hr : r ∈ yourResults models messages cs ov bs) :
    r ∈ allResults models messages cs ov bs := by
  unfold yourResults at hr
  obtain ⟨p, hp, hps⟩ := List.mem_filterMap.mp hr
  by_cases hflag : p.1.has_your_msgs
  · rw [if_pos hflag] at hps
    have := (List.of_mem_zip hp).2
    rw [Option.some_inj.mp hps] at this
    exact this
  · rw [if_neg hflag] at hps
    simp at hps

theorem mem_theirResults_allResults (models : Models) (messages : List Msg)
    (cs ov bs : Nat) (r : BatchItem)
    (hr : r ∈ theirResults models messages cs ov bs) :
    r ∈ allResults models messages cs ov bs := by
  unfold theirResults at hr
  obtain ⟨p, hp, hps⟩ := List.mem_filterMap.mp hr
  by_cases hflag : p.1.has_their_msgs
  · rw [if_pos hflag] at hps
    have := (List.of_mem_zip hp).2
    rw [Option.some_inj.mp hps] at this
    exact this
  · rw [if_neg hflag] at hps
    simp at hps

theorem chunkDatum_some_flags (c : List Msg) (htm : c.filter hasText ≠ []) :
    ∃ d, chunkDatum? c = some d
      ∧ (d.has_your_msgs = true ∨ d.has_their_msgs = true) := by
  unfold chunkDatum?
  rw [if_neg htm]
  refine ⟨_, rfl, ?_⟩
  obtain ⟨m, hm⟩ := List.exists_mem_of_ne_nil _ htm
  cases hfm : m.is_from_me with
  | true =>
    refine Or.inl ?_
    have : m ∈ (c.filter hasText).filter (fun m => m.is_from_me) :=
      List.mem_filter.mpr ⟨hm, by rw [hfm]⟩
    simpa using List.length_pos.mpr (List.ne_nil_of_mem this)
  | false =>
    refine Or.inr ?_
    have : m ∈ (c.filter hasText).filter (fun m => ! m.is_from_me) :=
      List.mem_filter.mpr ⟨hm, by rw [hfm]; rfl⟩
    simpa using List.length_pos.mpr (List.ne_nil_of_mem this)

theorem chunkData_zip_pair (models : Models) (messages : List Msg)
    (cs ov bs : Nat) (hbs : 1 ≤ bs) (d : ChunkDatum)
    (hd : d ∈ chunkData messages cs ov) :
    ∃ y, (d, y) ∈ (chunkData messages cs ov).zip
      (allResults models messages cs ov bs) := by
  have hlen : (chunkData messages cs ov).length
      = (allResults models messages cs ov bs).length := by
    unfold allResults
    rw [batchAnalyze_eq_map _ _ _ hbs, List.length_map, List.length_map]
  obtain ⟨i, hi⟩ := List.mem_iff_get.mp hd
  have hiz : i.1 < ((chunkData messages cs ov).zip
      (allResults models messages cs ov bs)).length := by
    rw [List.length_zip]
    have := i.2
    omega
  refine ⟨(allResults models messages cs ov bs).get ⟨i.1, by have := i.2; omega⟩, ?_⟩
  have hz := @List.getElem_zip _ _ (chunkData messages cs ov)
    (allResults models messages cs ov bs) i.1 hiz
  have hmem : ((chunkData messages cs ov).zip
      (allResults models messages cs ov bs))[i.1] ∈ _ := List.getElem_mem hiz
  rw [hz] at hmem
  have hget : (chunkData messages cs ov)[i.1] = d := by
    rw [← hi]
    rfl
  rw [hget] at hmem
  convert hmem

/-- C6.  `_aggregate_results` reads the toxicchat key that
`_batch_analyze_dialogues` never writes: aggregating any non-empty batch
result list raises `KeyError` at the toxicchat read; consequently
`analyze_conversation` cannot return normally whenever some chunk has
message text attributed to a speaker — i.e. whenever some message has text
— and it returns normally (with both per-speaker aggregates the empty
dict) exactly in the degenerate case that no message has text, where both
per-speaker result lists are empty. -/
theorem aggregate_results_toxicchat_keyerror :
    (∀ (models : Models) (texts : List String) (bs : Nat), 1 ≤ bs → texts ≠ [] →
      aggregateResults (batchAnalyzeDialogues models texts bs)
        = Except.error "KeyError: toxicchat")
    ∧ (∀ (models : Models) (messages : List Msg) (cs ov bs : Nat), 1 ≤ bs →
        (∃ m ∈ messages, m.text ≠ "") →
        ∃ e, analyze_conversation models messages cs ov bs = Except.error e)
    ∧ (∀ (models : Models) (messages : List Msg) (cs ov bs : Nat),
        (∀ m ∈ messages, m.text = "") →
        ∃ r, analyze_conversation models messages cs ov bs = Except.ok r
          ∧ r.your_analysis = AggResult.empty
          ∧ r.their_analysis = AggResult.empty) := by
  refine ⟨?_, ?_, ?_⟩
  · intro models texts bs hbs htexts
    rw [batchAnalyze_eq_map _ _ _ hbs]
    refine aggregate_batch_error _ ?_ ?_ ?_ ?_
    · intro hnil
      exact htexts (List.map_eq_nil_iff.mp hnil)
    · intro r hr
      obtain ⟨t, _, rfl⟩ := List.mem_map.mp hr
      exact analyzeOne_bert_keys models t
    · intro r hr
      obtain ⟨t, _, rfl⟩ := List.mem_map.mp hr
      exact analyzeOne_martin_isSome models t
    · intro r hr
      obtain ⟨t, _, rfl⟩ := List.mem_map.mp hr
      exact analyzeOne_toxicchat_none models t
  · intro models messages cs ov bs hbs htext
    obtain ⟨m, hm, hmt⟩ := htext
    obtain ⟨c, hc, hmc⟩ := createChunks_covers messages cs ov m hm
    have htm : c.filter hasText ≠ [] := by
      refine List.ne_nil_of_mem (List.mem_filter.mpr ⟨hmc, ?_⟩)
      simp [hasText, hmt]
    obtain ⟨d, hd, hflags⟩ := chunkDatum_some_flags c htm
    have hdmem : d ∈ chunkData messages cs ov :=
      List.mem_filterMap.mpr ⟨c, hc, hd⟩
    obtain ⟨y, hy⟩ := chunkData_zip_pair models messages cs ov bs hbs d hdmem
    have hyour : ∀ r ∈ yourResults models messages cs ov bs,
        r.toxicity.lookup "toxicchat" = none := fun r hr =>
      mem_allResults_toxicchat models messages cs ov bs hbs r
        (mem_yourResults_allResults models messages cs ov bs r hr)
    have htheir : ∀ r ∈ theirResults models messages cs ov bs,
        r.toxicity.lookup "toxicchat" = none := fun r hr =>
      mem_allResults_toxicchat models messages cs ov bs hbs r
        (mem_theirResults_allResults models messages cs ov bs r hr)
    by_cases hyr : yourResults models messages cs ov bs = []
    · have hth : theirResults models messages cs ov bs ≠ [] := by
        rcases hflags with hflag | hflag
        · exfalso
          have hymem : y ∈ yourResults models messages cs ov bs := by
            unfold yourResults
            refine List.mem_filterMap.mpr ⟨(d, y), hy, ?_⟩
            simp [hflag]
          rw [hyr] at hymem
          simp at hymem
        · refine List.ne_nil_of_mem (a := y) ?_
          unfold theirResults
          refine List.mem_filterMap.mpr ⟨(d, y), hy, ?_⟩
          simp [hflag]
      obtain ⟨e, he⟩ := aggregate_error_of_missing _ hth htheir
      refine ⟨e, ?_⟩
      unfold analyze_conversation
      rw [hyr, he]
      rfl
    · obtain ⟨e, he⟩ := aggregate_error_of_missing _ hyr hyour
      refine ⟨e, ?_⟩
      unfold analyze_conversation
      rw [he]
      rfl
  · intro models messages cs ov bs hall
    have hcd : chunkData messages cs ov = [] := by
      unfold chunkData
      rw [List.filterMap_eq_nil]
      intro c hc
      have hfil : c.filter hasText = [] := by
        rw [List.filter_eq_nil_iff]
        intro x hx
        have := hall x (createChunks_sub messages cs ov c hc x hx)
        simp [hasText, this]
      unfold chunkDatum?
      rw [if_pos hfil]
    have hyr : yourResults models messages cs ov bs = [] := by
      unfold yourResults
      rw [hcd]
      rfl
    have hther : theirResults models messages cs ov bs = [] := by
      unfold theirResults
      rw [hcd]
      rfl
    refine ⟨⟨AggResult.empty, AggResult.empty, messages.length,
      (messages.filter (fun m => m.is_from_me)).length,
      (messages.filter (fun m => ! m.is_from_me)).length,
      (createChunks messages cs ov).length, cs, ov⟩, ?_, rfl, rfl⟩
    unfold analyze_conversation
    rw [hyr, hther]
    rfl

/-- Constant stand-ins for the five external models. -/
def constModels : Models :=
  { personality := fun _ => ("neutral", 0),
    bert := fun _ => (0, 0, 0, 0, 0),
    toxicity := fun _ => ("ok", 0),
    sarcasm := fun _ => ("none", 0),
    sentiment := fun _ => ("NEU", 0) }

/-- A one-message conversation with text. -/
def textyMsg : Msg :=
  { text := "hello there", is_from_me := true, date_formatted := "", payload := 0 }

theorem aggregate_results_toxicchat_keyerror_witness :
    aggregateResults (batchAnalyzeDialogues constModels ["hi"] 16)
        = Except.error "KeyError: toxicchat"
    ∧ (∃ e, analyze_conversation constModels [textyMsg] 450 45 16 = Except.error e)
    ∧ (∃ r, analyze_conversation constModels [emptyMsg1] 450 45 16 = Except.ok r
        ∧ r.your_analysis = AggResult.empty
        ∧ r.their_analysis = AggResult.empty) :=
  ⟨aggregate_results_toxicchat_keyerror.1 constModels ["hi"] 16 (by decide)
      (by decide),
    aggregate_results_toxicchat_keyerror.2.1 constModels [textyMsg] 450 45 16
      (by decide) ⟨textyMsg, by decide, by decide⟩,
    aggregate_results_toxicchat_keyerror.2.2 constModels [emptyMsg1] 450 45 16
      (by decide)⟩

end MessageAnalyzer
